import Mathlib

/-!
Verification development for the rockcrest-inventory-api repository.

The repository contains several revisions of one serverless handler
(`src/api/inventory.js` and the unnamed revisions `src/unnamed/part_000`,
`part_001`, `part_002`).  This file gives a shallow embedding of the pure
data-processing core of those revisions:

* a model of JavaScript runtime values (`JSVal`) together with the pieces of
  the JS standard library the code relies on (`JSON.parse`, `Number(...)`,
  `String(...)`, `String.prototype.trim`, template strings, truthiness),
* the metafield normalizers `normalizeMeasureFromJSONish` (part_000),
  `normalizeMeasure` (part_002) and `normalizeDimension` (api/inventory.js),
* the row mappers and handler item pipelines of the different revisions,
* the paginated fetchers `fetchPagedJson` (part_001), `gqlFetch` and
  `fetchAllProducts` (api/inventory.js) and `gqlFetch` (part_000), with the
  network modelled as an explicit upstream oracle.

Strings are modelled as `List Char` (the `JStr` abbreviation): every file
operation used by the source (split, trim, includes, toLowerCase, regex
matching) is defined here directly on character lists so that all
definitions are executable and kernel-reducible.
-/

namespace RC

/-- Strings of the JavaScript model, as plain character lists. -/
abbrev JStr := List Char

/-- Character-list view of a Lean string literal. -/
def strOf (s : String) : JStr := s.toList

/-- Left brace character (written via its code point). -/
def lbrace : Char := Char.ofNat 123

/-- Right brace character (written via its code point). -/
def rbrace : Char := Char.ofNat 125

/-- Vertical tab. -/
def vtab : Char := Char.ofNat 11

/-- Form feed. -/
def ffeed : Char := Char.ofNat 12

/-- Whitespace recognised by JSON (`JSON.parse` skips exactly these):
space, tab, line feed, carriage return. -/
def isJsonWs (c : Char) : Bool :=
  c.toNat = 32 || c.toNat = 9 || c.toNat = 10 || c.toNat = 13

/-- Whitespace of the JS regex class `\s` and of `String.prototype.trim`
(restricted to the ASCII range, which is all the source data uses): the
JSON set plus vertical tab and form feed. -/
def isReWs (c : Char) : Bool :=
  isJsonWs c || c.toNat = 11 || c.toNat = 12

/-- ASCII letter, the JS regex class `[A-Za-z]`. -/
def isAlpha (c : Char) : Bool :=
  (97 ≤ c.toNat && c.toNat ≤ 122) || (65 ≤ c.toNat && c.toNat ≤ 90)

/-- ASCII digit, the JS regex class `\d`. -/
def isDigit (c : Char) : Bool :=
  48 ≤ c.toNat && c.toNat ≤ 57

/-- `String.prototype.trim`: drop leading and trailing whitespace. -/
def jsTrim (s : JStr) : JStr :=
  ((s.dropWhile isReWs).reverse.dropWhile isReWs).reverse

/-- ASCII lower-casing of one character (JS `toLowerCase`). -/
def toLowerCh (c : Char) : Char :=
  if 65 ≤ c.toNat && c.toNat ≤ 90 then Char.ofNat (c.toNat + 32) else c

/-- ASCII upper-casing of one character (JS `toUpperCase`). -/
def toUpperCh (c : Char) : Char :=
  if 97 ≤ c.toNat && c.toNat ≤ 122 then Char.ofNat (c.toNat - 32) else c

/-- `String.prototype.toLowerCase` (ASCII). -/
def lowerStr (s : JStr) : JStr := s.map toLowerCh

/-- `String.prototype.toUpperCase` (ASCII). -/
def upperStr (s : JStr) : JStr := s.map toUpperCh

/-- `a || b` for JS strings: the empty string is falsy. -/
def orS (a b : JStr) : JStr := if a = [] then b else a

/-- `hay.includes(sub)` for JS strings. -/
def jsIncludes (hay sub : JStr) : Bool :=
  hay.tails.any (fun t => sub.isPrefixOf t)

/-- Split a character list at every character satisfying `p`
(models `String.prototype.split` with a single-class separator). -/
def splitOnP (p : Char → Bool) (s : JStr) : List JStr :=
  match s with
  | [] => [[]]
  | c :: rest =>
    let r := splitOnP p rest
    if p c then [] :: r
    else match r with
      | [] => [[c]]
      | g :: gs => (c :: g) :: gs

/-- Finite JS numbers, represented exactly as a decimal `m * 10 ^ e`.
Every number the source produces or consumes comes from a decimal literal
and goes back out through `toString`, so this scaled-decimal model is exact
for them (the double rounding of extreme literals is not modelled). -/
structure Dec where
  m : Int
  e : Int
  deriving Inhabited, DecidableEq

/-- JavaScript runtime values, as far as the source manipulates them.
`nan` stands for the non-finite numbers (`NaN`). -/
inductive JSVal where
  | null
  | undef
  | bool (b : Bool)
  | num (q : Dec)
  | nan
  | str (s : JStr)
  | arr (xs : List JSVal)
  | obj (fields : List (JStr × JSVal))
  deriving Inhabited

/-- `v == null` (loose equality): true exactly for `null` and `undefined`. -/
def JSVal.isNullish : JSVal → Bool
  | .null => true
  | .undef => true
  | _ => false

/-- JS truthiness. -/
def jsTruthy : JSVal → Bool
  | .null => false
  | .undef => false
  | .bool b => b
  | .num q => q.m ≠ 0
  | .nan => false
  | .str s => s ≠ []
  | .arr _ => true
  | .obj _ => true

/-- Property lookup `v[k]`; on JSON objects duplicate keys resolve to the
last occurrence, like `JSON.parse`.  Non-objects have no own properties the
source reads, so the result is `undefined` (modelled as `none`). -/
def getField : JSVal → JStr → Option JSVal
  | .obj fields, k => (fields.reverse.find? (fun p => p.1 = k)).map (·.2)
  | _, _ => none

/-- Property lookup defaulting to `undefined`. -/
def getFieldD (v : JSVal) (k : JStr) : JSVal := (getField v k).getD (JSVal.undef)

/-- `typeof v === "object"` (for non-null v, i.e. arrays and objects). -/
def JSVal.isObjectType : JSVal → Bool
  | .arr _ => true
  | .obj _ => true
  | _ => false

/-! ### Number formatting and parsing (JS `String(n)` and `Number(s)`)

`natToChars` / `decToString` model `Number.prototype.toString` by plain
decimal expansion (the source only ever prints small metafield measurements,
where this coincides with JS; the exponential notation JS switches to beyond
1e21 is not modelled).  `strToNum` models the JSON number grammar and
`jsNumberOfString` the `Number(string)` coercion grammar. -/

/-- Powers of ten. -/
def pow10 : Nat → Nat
  | 0 => 1
  | k + 1 => 10 * pow10 k

/-- Decimal digit character for `n < 10`. -/
def digitChar (n : Nat) : Char := Char.ofNat (48 + n)

/-- Decimal digits of a natural number (auxiliary, fuel-driven). -/
def natToCharsAux : Nat → Nat → JStr
  | 0, _ => []
  | fuel + 1, n =>
    if n < 10 then [digitChar n]
    else natToCharsAux fuel (n / 10) ++ [digitChar (n % 10)]

/-- Decimal digits of a natural number. -/
def natToChars (n : Nat) : JStr := natToCharsAux (n + 1) n

/-- Strip trailing `'0'` characters. -/
def stripZeros (l : JStr) : JStr :=
  (l.reverse.dropWhile (fun c => c = '0')).reverse

/-- The fractional digit block of `fr / 10^k`: the digits of `fr` padded to
`k` places, with trailing zeros stripped (JS prints the shortest form). -/
def fracBlock (k fr : Nat) : JStr :=
  stripZeros (List.replicate (k - (natToChars fr).length) '0' ++ natToChars fr)

/-- The unsigned decimal expansion of `n * 10 ^ e`. -/
def decCore (n : Nat) (e : Int) : JStr :=
  if e ≥ 0 then natToChars (n * pow10 e.toNat)
  else
    let k := (-e).toNat
    let fr := n % pow10 k
    if fr = 0 then natToChars (n / pow10 k)
    else if fracBlock k fr = [] then natToChars (n / pow10 k)
    else natToChars (n / pow10 k) ++ '.' :: fracBlock k fr

/-- `String(q)` for a finite JS number: sign and decimal expansion, with
trailing fractional zeros stripped, as JS prints (e.g. `4.0` prints `4`). -/
def decToString (q : Dec) : JStr :=
  if q.m = 0 then ['0']
  else if q.m < 0 then '-' :: decCore q.m.natAbs q.e
  else decCore q.m.natAbs q.e

/-- Characters a JSON/JS number token may contain. -/
def isNumChar (c : Char) : Bool :=
  isDigit c || c = '-' || c = '+' || c = '.' || c = 'e' || c = 'E'

/-- Characters that may start a JSON number. -/
def isNumStart (c : Char) : Bool := isDigit c || c = '-'

/-- Value of a list of decimal digit characters. -/
def digitsVal (ds : JStr) : Nat :=
  ds.foldl (fun acc c => acc * 10 + (c.toNat - 48)) 0

/-- Parse `digits` returning the digit block and the rest. -/
def spanDigits (s : JStr) : JStr × JStr := s.span isDigit

/-- Exponent part after `e`/`E`: optional sign then digits. -/
def expTail (s : JStr) : Option Int × JStr :=
  let (esign, t) : Int × JStr :=
    match s with
    | '-' :: rest => (-1, rest)
    | '+' :: rest => (1, rest)
    | _ => (1, s)
  let (ds, rest) := spanDigits t
  if ds = [] then (none, s) else (some (esign * digitsVal ds), rest)

/-- Assemble a decimal from sign, integer digits, fraction digits and a
base-ten exponent. -/
def mkDec (neg : Bool) (ip fs : JStr) (ex : Int) : Dec :=
  let mag : Int := (digitsVal ip * pow10 fs.length + digitsVal fs : Nat)
  ⟨if neg then -mag else mag, ex - fs.length⟩

/-- JSON number grammar: `-? int frac? exp?` with `int = 0 | [1-9][0-9]*`.
Returns `none` when `s` is not exactly a JSON number. -/
def strToNum (s : JStr) : Option Dec :=
  let (neg, s1) : Bool × JStr :=
    match s with
    | '-' :: rest => (true, rest)
    | _ => (false, s)
  let (ip, s2) := spanDigits s1
  if ip = [] then none
  else if ip.length > 1 && ip.headD '0' = '0' then none
  else
    let (fracPart, s3) : Option JStr × JStr :=
      match s2 with
      | '.' :: rest =>
        let (fs, r) := spanDigits rest
        if fs = [] then (none, s2) else (some fs, r)
      | _ => (some [], s2)
    match fracPart with
    | none => none
    | some fs =>
      let (expPart, s4) : Option Int × JStr :=
        match s3 with
        | 'e' :: rest => expTail rest
        | 'E' :: rest => expTail rest
        | _ => (some 0, s3)
      match expPart with
      | none => none
      | some ex => if s4 = [] then some (mkDec neg ip fs ex) else none

/-- Hexadecimal digit value, if any. -/
def hexVal (c : Char) : Option Nat :=
  if isDigit c then some (c.toNat - 48)
  else if 'a' ≤ c && c ≤ 'f' then some (c.toNat - 87)
  else if 'A' ≤ c && c ≤ 'F' then some (c.toNat - 55)
  else none

/-- Value of a digit list in a base, `none` on an invalid digit. -/
def baseDigitsVal (base : Nat) (ds : JStr) : Option Nat :=
  ds.foldlM (fun acc c => do
    let v ← hexVal c
    if v < base then pure (acc * base + v) else none) 0

/-- JS decimal literal: `[+-]? (digits (. digits?)? | . digits) exp?`. -/
def decimalLit (s : JStr) : Option Dec :=
  let (neg, s1) : Bool × JStr :=
    match s with
    | '-' :: rest => (true, rest)
    | '+' :: rest => (false, rest)
    | _ => (false, s)
  let (ip, s2) := spanDigits s1
  let (fracPart, s3) : Option JStr × JStr :=
    match s2 with
    | '.' :: rest =>
      let (fs, r) := spanDigits rest
      (some fs, r)
    | _ => (some [], s2)
  match fracPart with
  | none => none
  | some fs =>
    if ip = [] && fs = [] then none
    else
      let (expPart, s4) : Option Int × JStr :=
        match s3 with
        | 'e' :: rest => expTail rest
        | 'E' :: rest => expTail rest
        | _ => (some 0, s3)
      match expPart with
      | none => none
      | some ex => if s4 = [] then some (mkDec neg ip fs ex) else none

/-- `Number(string)` coercion grammar: trimmed, empty means 0, `Infinity`
is non-finite (`none`), `0x`/`0o`/`0b` radix literals, otherwise a decimal
literal which (unlike JSON) allows `+`, a leading dot, and a trailing dot. -/
def jsNumberOfString (s0 : JStr) : Option Dec :=
  let s := jsTrim s0
  if s = [] then some ⟨0, 0⟩
  else if s = strOf "Infinity" || s = strOf "+Infinity" || s = strOf "-Infinity" then none
  else
    match s with
    | '0' :: 'x' :: rest => if rest = [] then none else (baseDigitsVal 16 rest).map (fun n => ⟨(n : Int), 0⟩)
    | '0' :: 'X' :: rest => if rest = [] then none else (baseDigitsVal 16 rest).map (fun n => ⟨(n : Int), 0⟩)
    | '0' :: 'o' :: rest => if rest = [] then none else (baseDigitsVal 8 rest).map (fun n => ⟨(n : Int), 0⟩)
    | '0' :: 'O' :: rest => if rest = [] then none else (baseDigitsVal 8 rest).map (fun n => ⟨(n : Int), 0⟩)
    | '0' :: 'b' :: rest => if rest = [] then none else (baseDigitsVal 2 rest).map (fun n => ⟨(n : Int), 0⟩)
    | '0' :: 'B' :: rest => if rest = [] then none else (baseDigitsVal 2 rest).map (fun n => ⟨(n : Int), 0⟩)
    | _ => decimalLit s

/-! ### `String(v)` display conversion -/

/-- `String(v)` for non-array values (no recursion needed). -/
def jsDisplayFlat : JSVal → JStr
  | .null => strOf "null"
  | .undef => strOf "undefined"
  | .bool true => strOf "true"
  | .bool false => strOf "false"
  | .num q => decToString q
  | .nan => strOf "NaN"
  | .str s => s
  | .arr _ => []
  | .obj _ => strOf "[object Object]"

/-- `Array.prototype.toString` with explicit nesting fuel: elements joined
by commas, `null`/`undefined` elements displayed as empty. -/
def jsDisplayArr : Nat → List JSVal → JStr
  | 0, _ => []
  | _ + 1, [] => []
  | fuel + 1, x :: rest =>
    let hd : JStr :=
      match x with
      | .null => []
      | .undef => []
      | .arr ys => jsDisplayArr fuel ys
      | v => jsDisplayFlat v
    match rest with
    | [] => hd
    | _ :: _ => hd ++ ',' :: jsDisplayArr fuel rest

/-- `String(v)`: JS display conversion of a value.  Array display recurses
with a fixed nesting budget (the upstream API data never nests arrays at
all; metafield list values are flat). -/
def jsDisplay : JSVal → JStr
  | .arr xs => jsDisplayArr 8 xs
  | v => jsDisplayFlat v

/-- `Number(v)` coercion; `none` is a non-finite result (`NaN`). -/
def jsToNumber : JSVal → Option Dec
  | .null => some ⟨0, 0⟩
  | .undef => none
  | .bool true => some ⟨1, 0⟩
  | .bool false => some ⟨0, 0⟩
  | .num q => some q
  | .nan => none
  | .str s => jsNumberOfString s
  | .arr xs => jsNumberOfString (jsDisplay (.arr xs))
  | .obj _ => none

/-! ### `JSON.parse`

A fuel-driven recursive-descent parser for JSON.  `none` models a thrown
`SyntaxError`.  The fuel is generous (two units per character plus slack);
each recursive call first consumes at least one character, so the parser
never runs out of fuel on real input. -/

/-- Result of a partial parse: out of fuel, a syntax error, or a value with
the remaining input. -/
inductive PRes (α : Type) where
  | out
  | fail
  | ok (v : α) (rest : JStr)
  deriving Inhabited

/-- Skip JSON whitespace. -/
def skipWs (s : JStr) : JStr := s.dropWhile isJsonWs

/-- Match a literal keyword tail. -/
def expectStr (pat s : JStr) : Option JStr :=
  match pat, s with
  | [], s => some s
  | p :: ps, c :: cs => if c = p then expectStr ps cs else none
  | _ :: _, [] => none

/-- Simple (single-character) JSON string escapes. -/
def escChar (c : Char) : Option Char :=
  if c = '"' then some '"'
  else if c = '\\' then some '\\'
  else if c = '/' then some '/'
  else if c = 'b' then some (Char.ofNat 8)
  else if c = 'f' then some ffeed
  else if c = 'n' then some '\n'
  else if c = 'r' then some '\r'
  else if c = 't' then some '\t'
  else none

/-- Parse a JSON string body (after the opening quote), with escapes. -/
def parseStringLit : JStr → Option (JStr × JStr)
  | [] => none
  | '"' :: rest => some ([], rest)
  | '\\' :: 'u' :: h1 :: h2 :: h3 :: h4 :: rest =>
    (match hexVal h1, hexVal h2, hexVal h3, hexVal h4 with
     | some a, some b, some cc, some d =>
       (parseStringLit rest).map
         (fun p => (Char.ofNat (((a * 16 + b) * 16 + cc) * 16 + d) :: p.1, p.2))
     | _, _, _, _ => none)
  | '\\' :: c :: rest =>
    (match escChar c with
     | some ch => (parseStringLit rest).map (fun p => (ch :: p.1, p.2))
     | none => none)
  | [_] => none
  | c :: rest =>
    if c.toNat < 32 then none
    else (parseStringLit rest).map (fun p => (c :: p.1, p.2))

/-- Parse a JSON number token by maximal munch then grammar validation. -/
def parseNumTok (s : JStr) : PRes JSVal :=
  let (tok, rest) := s.span isNumChar
  match strToNum tok with
  | some q => .ok (.num q) rest
  | none => .fail

/-- Parsing mode: a single value, the element list of an array (ending in
`]`, result wrapped as `.arr`), or the member list of an object (ending in
the closing brace, result wrapped as `.obj`). -/
inductive PMode where
  | val
  | elems
  | members

/-- Recursive-descent JSON parser, structurally recursive on the fuel.
In `.val` mode the leading whitespace must already be skipped. -/
def parseAny : Nat → PMode → JStr → PRes JSVal
  | 0, _, _ => .out
  | _ + 1, .val, [] => .fail
  | fuel + 1, .val, c :: rest =>
    if c = 't' then
      match expectStr (strOf "rue") rest with
      | some r => .ok (.bool true) r
      | none => .fail
    else if c = 'f' then
      match expectStr (strOf "alse") rest with
      | some r => .ok (.bool false) r
      | none => .fail
    else if c = 'n' then
      match expectStr (strOf "ull") rest with
      | some r => .ok .null r
      | none => .fail
    else if c = '"' then
      match parseStringLit rest with
      | some (sv, r) => .ok (.str sv) r
      | none => .fail
    else if c = '[' then
      match skipWs rest with
      | ']' :: r => .ok (.arr []) r
      | cs => parseAny fuel .elems cs
    else if c = lbrace then
      match skipWs rest with
      | cs =>
        if cs.headD ' ' = rbrace && cs ≠ [] then .ok (.obj []) cs.tail
        else parseAny fuel .members cs
    else if isNumStart c then parseNumTok (c :: rest)
    else .fail
  | fuel + 1, .elems, s =>
    (match parseAny fuel .val s with
     | .ok v r =>
       (match skipWs r with
        | ',' :: r' =>
          (match parseAny fuel .elems (skipWs r') with
           | .ok (.arr vs) r'' => .ok (.arr (v :: vs)) r''
           | .ok _ _ => .fail
           | .fail => .fail
           | .out => .out)
        | ']' :: r' => .ok (.arr [v]) r'
        | _ => .fail)
     | .fail => .fail
     | .out => .out)
  | fuel + 1, .members, s =>
    (match s with
     | '"' :: rest =>
       (match parseStringLit rest with
        | some (k, r) =>
          (match skipWs r with
           | ':' :: r' =>
             (match parseAny fuel .val (skipWs r') with
              | .ok v r'' =>
                (match skipWs r'' with
                 | ',' :: r3 =>
                   (match parseAny fuel .members (skipWs r3) with
                    | .ok (.obj fs) r4 => .ok (.obj ((k, v) :: fs)) r4
                    | .ok _ _ => .fail
                    | .fail => .fail
                    | .out => .out)
                 | c :: r3 =>
                   if c = rbrace then .ok (.obj [(k, v)]) r3 else .fail
                 | [] => .fail)
              | .fail => .fail
              | .out => .out)
           | _ => .fail)
        | none => .fail)
     | _ => .fail)

/-- `JSON.parse(s)`: `none` models a thrown `SyntaxError`. -/
def jsonParse (s : JStr) : Option JSVal :=
  match parseAny (2 * s.length + 4) .val (skipWs s) with
  | .ok v rest => if skipWs rest = [] then some v else none
  | _ => none

/-! ## Metafield normalizers

`unitAbbrev` and `normalizeMeasureFromJSONish` are from `src/unnamed/part_000`
(lines 16-55); `normalizeMeasure` is from `src/unnamed/part_002` (lines
82-104); `UNIT_MAP`, `normalizeDimension` and `pickCaliper` are from
`src/api/inventory.js` (lines 107-155). -/

/-- The if-else chain of part_000 `unitAbbrev` (lines 18-23), applied to
the already lower-cased display string: known unit words map to their
abbreviation, anything else passes through. -/
def unitChain (t : JStr) : JStr :=
  if t = strOf "inches" || t = strOf "inch" || t = strOf "in" then strOf "in"
  else if t = strOf "feet" || t = strOf "foot" || t = strOf "ft" then strOf "ft"
  else if t = strOf "centimeters" || t = strOf "cm" then strOf "cm"
  else if t = strOf "meters" || t = strOf "m" then strOf "m"
  else t

/-- part_000 `unitAbbrev(u)`: falsy input gives `""`; otherwise the
lower-cased string display, abbreviated for the known unit words. -/
def unitAbbrev (u : JSVal) : JStr :=
  if ¬ jsTruthy u then []
  else unitChain (lowerStr (jsDisplay u))

/-- The optional-fraction step of the measurement regex
`/^(\d+(\.\d+)?)(?:\s+([A-Za-z]+))?$/` (part_000 line 47): extend the
leading digit block `ds` with `.digits` from the remainder `r1` when
present, returning the full numeric capture and the rest. -/
def mmNum (ds r1 : JStr) : JStr × JStr :=
  if r1.headD ' ' = '.' then
    let (fs, r3) := r1.tail.span isDigit
    if fs = [] then (ds, r1) else (ds ++ '.' :: fs, r3)
  else (ds, r1)

/-- The optional-unit step of the measurement regex: the rest after the
numeric capture must be empty, or whitespace followed by a letter word
reaching the end of the string. -/
def mmUnit (numPart r2 : JStr) : Option (JStr × Option JStr) :=
  if r2 = [] then some (numPart, none)
  else if isReWs (r2.headD ' ') then
    let r4 := r2.dropWhile isReWs
    let (al, r5) := r4.span isAlpha
    if al ≠ [] && r5 = [] then some (numPart, some al) else none
  else none

/-- The regex `/^(\d+(\.\d+)?)(?:\s+([A-Za-z]+))?$/` of part_000 line 47:
on a match, the numeric capture and the optional unit-word capture. -/
def matchMeasure (s : JStr) : Option (JStr × Option JStr) :=
  let (ds, r1) := s.span isDigit
  if ds = [] then none
  else
    let (numPart, r2) := mmNum ds r1
    mmUnit numPart r2

/-- The JSON-branch of `normalizeMeasureFromJSONish`: the body of the `try`
block.  `none` means execution falls through to the plain-string branch
(either `JSON.parse` threw, or there was no usable finite `.value`). -/
def jsonBranch (raw : JSVal) (defaultUnit : JStr) : Option JStr :=
  let objOpt : Option JSVal :=
    match raw with
    | .str s => jsonParse s
    | _ => some raw
  match objOpt with
  | none => none
  | some obj =>
    if jsTruthy obj && !(getFieldD obj "value".toList).isNullish then
      match jsToNumber (getFieldD obj "value".toList) with
      | some q =>
        some (decToString q ++ ' ' :: orS (unitAbbrev (getFieldD obj "unit".toList)) defaultUnit)
      | none => none
    else none

/-- The plain-string branch of `normalizeMeasureFromJSONish` (lines 43-54):
trim the display string, `null` on empty, re-format on a regex match,
otherwise return the trimmed string as-is. -/
def stringBranch (raw : JSVal) (defaultUnit : JStr) : Option JStr :=
  let s := jsTrim (jsDisplay raw)
  if s = [] then none
  else
    match matchMeasure s with
    | some (num, unitCap) =>
      let capVal : JSVal := match unitCap with
        | some u => .str u
        | none => .undef
      some (num ++ ' ' :: orS (unitAbbrev capVal) defaultUnit)
    | none => some s

/-- part_000 `normalizeMeasureFromJSONish(raw, defaultUnit = "in")`. -/
def normalizeMeasureFromJSONish (raw : JSVal) (defaultUnit : JStr := strOf "in") :
    Option JStr :=
  if raw.isNullish then none
  else
    match jsonBranch raw defaultUnit with
    | some out => some out
    | none => stringBranch raw defaultUnit

/-- Re-inject a JS return value (`null` or a string) as a `JSVal`, for
feeding a normalizer's result back into it. -/
def optToJS : Option JStr → JSVal
  | none => .null
  | some s => .str s

/-- The unit abbreviation the JSON branch would emit for `obj` with the
default unit `"in"`. -/
def abbrFor (obj : JSVal) : JStr :=
  orS (unitAbbrev (getFieldD obj (strOf "unit"))) (strOf "in")

/-- The parsed (or directly supplied) measurement object has a whitespace-
clean unit: whenever the JSON branch would fire on it, the emitted unit
abbreviation carries no leading or trailing whitespace. -/
def unitCleanFor (o : Option JSVal) : Bool :=
  match o with
  | some obj =>
    if jsTruthy obj && !(getFieldD obj (strOf "value")).isNullish
        && (jsToNumber (getFieldD obj (strOf "value"))).isSome then
      jsTrim (abbrFor obj) = abbrFor obj
    else true
  | none => true

/-- Inputs on which idempotence of the normalizer is claimed: the kinds the
spec lists (null, string, JSON-string, number, structured object), with
strings already trimmed and with whitespace-clean units (a unit string with
surrounding whitespace is embedded verbatim on the first pass and trimmed
away by the second, breaking idempotence in the source). -/
def cleanInput : JSVal → Bool
  | .str s => jsTrim s = s && unitCleanFor (jsonParse s)
  | .obj fs => unitCleanFor (some (.obj fs))
  | .arr _ => false
  | _ => true

/-! ### Exception-instrumented variant of the part_000 normalizer (for the
totality claim): every JS operation that can throw — `JSON.parse` on a bad
string, property access on `null`/`undefined` — is modelled in an `Except`
monad, and the `try`/`catch` of the source is the explicit handler
`catchToNone`.  Everything after the `try` block propagates exceptions to
the caller, so totality of the whole function is a real statement about the
guards in the source, not an artifact of the embedding. -/

/-- `JSON.parse` as a throwing operation. -/
def jsonParseE (s : JStr) : Except JStr JSVal :=
  match jsonParse s with
  | some v => .ok v
  | none => .error (strOf "SyntaxError: Unexpected token in JSON")

/-- Property access `v[k]` as a throwing operation: reading a property of
`null`/`undefined` is a `TypeError`. -/
def getFieldE (v : JSVal) (k : JStr) : Except JStr JSVal :=
  if v.isNullish then .error (strOf "TypeError: cannot read properties of null")
  else .ok (getFieldD v k)

/-- `try { body } catch (_) { }` where the caught branch falls through:
a thrown error in the body is swallowed. -/
def catchToNone (body : Except JStr (Option JStr)) : Option JStr :=
  match body with
  | .ok r => r
  | .error _ => none

/-- The `try` body of `normalizeMeasureFromJSONish` with explicit throws
(part_000 lines 32-41).  `if (obj && obj.value != null)`: the truthiness
test short-circuits, so the property accesses are guarded. -/
def jsonBranchE (raw : JSVal) (defaultUnit : JStr) : Except JStr (Option JStr) :=
  match (match raw with
         | .str s => jsonParseE s
         | _ => .ok raw) with
  | .error e => .error e
  | .ok obj =>
    if jsTruthy obj then
      match getFieldE obj (strOf "value") with
      | .error e => .error e
      | .ok v =>
        if !v.isNullish then
          match jsToNumber v with
          | some q =>
            match getFieldE obj (strOf "unit") with
            | .error e => .error e
            | .ok u => .ok (some (decToString q ++ ' ' :: orS (unitAbbrev u) defaultUnit))
          | none => .ok none
        else .ok none
    else .ok none

/-- The plain-string branch with explicit throws (part_000 lines 43-54):
it runs outside the `try`, so an exception here would escape; none of its
operations (`String(raw)`, `trim`, the regex match on a guarded result)
can throw. -/
def stringBranchE (raw : JSVal) (defaultUnit : JStr) : Except JStr (Option JStr) :=
  let s := jsTrim (jsDisplay raw)
  if s = [] then .ok none
  else
    match matchMeasure s with
    | some (num, unitCap) =>
      let capVal : JSVal := match unitCap with
        | some u => .str u
        | none => .undef
      .ok (some (num ++ ' ' :: orS (unitAbbrev capVal) defaultUnit))
    | none => .ok (some s)

/-- `normalizeMeasureFromJSONish` in the exception-instrumented semantics:
the `try`/`catch` wraps only the JSON branch. -/
def normalizeMeasureFromJSONishE (raw : JSVal) (defaultUnit : JStr) :
    Except JStr (Option JStr) :=
  if raw.isNullish then .ok none
  else
    match catchToNone (jsonBranchE raw defaultUnit) with
    | some out => .ok (some out)
    | none => stringBranchE raw defaultUnit

/-- part_002 `normalizeMeasure(val, defaultUnit = "in")`. -/
def normalizeMeasure (val : JSVal) (defaultUnit : JStr := strOf "in") : Option JStr :=
  if val.isNullish then none
  else if val.isObjectType && ¬ (getFieldD val "value".toList).isNullish then
    match jsToNumber (getFieldD val "value".toList) with
    | some q => some (decToString q ++ ' ' :: orS (unitAbbrev (getFieldD val "unit".toList)) defaultUnit)
    | none => some (jsDisplay (getFieldD val "value".toList))
  else
    match val with
    | .num q => some (decToString q ++ ' ' :: defaultUnit)
    | .nan => some (strOf "NaN" ++ ' ' :: defaultUnit)
    | _ => some (jsDisplay val)

/-- inventory.js `UNIT_MAP` (lines 107-114). -/
def unitMapLookup (s : JStr) : Option JStr :=
  if s = strOf "MILLIMETERS" then some (strOf "mm")
  else if s = strOf "CENTIMETERS" then some (strOf "cm")
  else if s = strOf "METERS" then some (strOf "m")
  else if s = strOf "INCHES" then some (strOf "in")
  else if s = strOf "FEET" then some (strOf "ft")
  else if s = strOf "YARDS" then some (strOf "yd")
  else none

/-- `UNIT_MAP[(u || "").toUpperCase()] || (u || "").toLowerCase()` where `u`
is an arbitrary JS value (inventory.js lines 127 and 137). -/
def unitMapAbbrev (u : JSVal) : JStr :=
  let uv := if jsTruthy u then jsDisplay u else []
  match unitMapLookup (upperStr uv) with
  | some a => a
  | none => lowerStr uv

/-- A GraphQL metafield node `{ value, type }` as fetched by inventory.js:
`value` is an arbitrary JS value, `type` a string when requested. -/
structure DimMF where
  value : JSVal
  type : Option JStr
  deriving Inhabited

/-- inventory.js `normalizeDimension(mf)` (lines 121-147); the argument is
`none` when the metafield is `null`/absent. -/
def normalizeDimension (mf : Option DimMF) : Option JStr :=
  match mf with
  | none => none
  | some m =>
    if m.value.isNullish then none
    else if m.value.isObjectType && ¬ (getFieldD m.value "value".toList).isNullish then
      let numv := getFieldD m.value "value".toList
      let unit := unitMapAbbrev (getFieldD m.value "unit".toList)
      if unit ≠ [] then some (jsDisplay numv ++ ' ' :: unit)
      else some (jsDisplay numv)
    else
      let raw := jsTrim (jsDisplay m.value)
      let viaDim : Option JStr :=
        if jsIncludes (lowerStr (m.type.getD [])) (strOf "dimension") then
          match jsonParse raw with
          | some parsed =>
            if jsTruthy parsed && ¬ (getFieldD parsed "value".toList).isNullish then
              let unit := unitMapAbbrev (getFieldD parsed "unit".toList)
              if unit ≠ [] then
                some (jsDisplay (getFieldD parsed "value".toList) ++ ' ' :: unit)
              else some (jsDisplay (getFieldD parsed "value".toList))
            else none
          | none => none
        else none
      match viaDim with
      | some out => some out
      | none => if raw = [] then none else some raw

/-- Truthiness of a JS string-or-null value (`if (v) ...`). -/
def strOptTruthy : Option JStr → Bool
  | some s => s ≠ []
  | none => false

/-- inventory.js `pickCaliper(productMF, variantMF)` (lines 149-155). -/
def pickCaliper (productMF variantMF : Option DimMF) : Option JStr :=
  let v := normalizeDimension variantMF
  if strOptTruthy v then v
  else
    let p := normalizeDimension productMF
    if strOptTruthy p then p
    else none

/-! ## inventory.js (GraphQL revision with dimension normalization)

Row mapper of `src/api/inventory.js`, lines 100-104 and 172-198. -/

namespace Inv

/-- A variant node of the GraphQL products query (inventory.js lines 84-93). -/
structure Variant where
  sku : JStr
  price : Option JStr
  inventoryQuantity : Option Int
  caliperVariant : Option DimMF

/-- A product node of the GraphQL products query (inventory.js lines 71-98). -/
structure Product where
  title : JStr
  handle : JStr
  tags : Option (List JStr)
  images : List JStr
  common : Option JStr
  caliperProduct : Option DimMF
  variants : List Variant

/-- An output row (inventory.js lines 185-194). -/
structure Row where
  title : JStr
  commonName : Option JStr
  plantCaliper : Option JStr
  sku : Option JStr
  price : Option JStr
  qty : Option Int
  url : Option JStr
  image : Option JStr
  deriving DecidableEq

/-- inventory.js `hasExcludedTag(tags)` (lines 100-104) with
`EXCLUDE_TAG_SUBSTR = "blue"`; `none` models a non-array value. -/
def hasExcludedTag (tags : Option (List JStr)) : Bool :=
  match tags with
  | none => false
  | some ts => ts.any (fun t => jsIncludes (lowerStr t) (strOf "blue"))

/-- The public storefront base URL (`PUBLIC_STORE_DOMAIN` default). -/
def publicStoreDomain : JStr := strOf "https://shop.rockcrestgardens.com"

/-- The row built for a product and one of its variants
(inventory.js lines 177-194). -/
def mkRow (p : Product) (v : Variant) : Row :=
  { title := p.title
    commonName := match p.common with
      | some c => if c = [] then none else some c
      | none => none
    plantCaliper := pickCaliper p.caliperProduct v.caliperVariant
    sku := if v.sku = [] then none else some v.sku
    -- price: `v.price != null ? String(v.price) : null`; GraphQL price is a
    -- string and `String` on a string is the identity
    price := v.price
    qty := v.inventoryQuantity
    url := if p.handle = [] then none
           else some (publicStoreDomain ++ strOf "/products/" ++ p.handle)
    image := match p.images with
      | [] => none
      | u :: _ => if u = [] then none else some u }

/-- inventory.js `mapToRows(products)` (lines 172-198). -/
def mapToRows (products : List Product) : List Row :=
  products.flatMap (fun p =>
    if hasExcludedTag p.tags then []
    else p.variants.map (mkRow p))

end Inv

/-- `a || b` on JS values. -/
def jsOr (a b : JSVal) : JSVal := if jsTruthy a then a else b

/-- Join a list of strings with a separator (`Array.prototype.join`). -/
def joinSep (sep : JStr) : List JStr → JStr
  | [] => []
  | [t] => t
  | t :: u :: rest => t ++ sep ++ joinSep sep (u :: rest)

/-- part_000/part_002 `isBlueByMetafields(productMF, productTags)`
(part_000 lines 63-79; part_002 lines 63-80 are a verbatim copy).
`productMF` is an arbitrary JS value; the tag fallback only runs when it is
not an object. -/
def isBlueByMetafields (productMF : JSVal) (productTags : JStr) : Bool :=
  if jsTruthy productMF && productMF.isObjectType then
    let c := jsOr (getFieldD productMF (strOf "custom")) (.obj [])
    let blueTagged := getFieldD c (strOf "blue_tagged")
    let blueTaggedHit : Bool :=
      (match blueTagged with | .bool true => true | _ => false)
        || lowerStr (jsDisplay blueTagged) = strOf "true"
    let blueTagHit : Bool :=
      match getFieldD c (strOf "blue_tag") with
      | .str s => lowerStr s = strOf "blue"
      | _ => false
    if blueTaggedHit then true
    else if blueTagHit then true
    else
      let list := jsOr (getFieldD c (strOf "tags"))
        (jsOr (getFieldD c (strOf "blue_tags")) (getFieldD c (strOf "metatags")))
      match list with
      | .arr xs => xs.any (fun x => lowerStr (jsDisplay x) = strOf "blue")
      | .str s =>
        let parts := ((splitOnP (fun ch => ch = ',' || ch = '|') (lowerStr s)).map jsTrim).filter
          (fun t => t ≠ [])
        parts.contains (strOf "blue")
      | _ => false
  else
    -- fallback to product tags when no metafields object exists
    jsIncludes (lowerStr productTags) (strOf "blue")

/-! ## part_000 (GraphQL revision with variant metafields and minimal mode) -/

namespace P000

/-- One entry of a GraphQL `metafields(identifiers: ...)` list. -/
structure MFEntry where
  ns : JStr
  key : JStr
  type : Option JStr
  value : JSVal

/-- part_000 `metafieldsArrayToObject(arr)` (lines 196-212); the result is
the nested plain object `out[ns][k]`.  Entries with a falsy namespace or
key are skipped; boolean-typed values are coerced via
`String(v).toLowerCase() === "true"`. -/
def metafieldsArrayToObject (arr : List MFEntry) : JSVal :=
  .obj (arr.foldl step [])
where
  /-- `out[ns] = out[ns] || {}; out[ns][k] = v` as assoc-list update. -/
  setNs (fields : List (JStr × JSVal)) (ns k : JStr) (v : JSVal) :
      List (JStr × JSVal) :=
    match fields with
    | [] => [(ns, .obj [(k, v)])]
    | (n, inner) :: rest =>
      if n = ns then
        let innerFields := match inner with
          | .obj fs => fs
          | _ => []
        (n, .obj (setKey innerFields k v)) :: rest
      else (n, inner) :: setNs rest ns k v
  /-- `inner[k] = v` as assoc-list update. -/
  setKey (fields : List (JStr × JSVal)) (k : JStr) (v : JSVal) :
      List (JStr × JSVal) :=
    match fields with
    | [] => [(k, v)]
    | (k', v') :: rest =>
      if k' = k then (k, v) :: rest else (k', v') :: setKey rest k v
  /-- Process one metafield entry. -/
  step (fields : List (JStr × JSVal)) (mf : MFEntry) : List (JStr × JSVal) :=
    if mf.ns = [] || mf.key = [] then fields
    else
      let coerced : JSVal :=
        match mf.type with
        | some t =>
          if t ≠ [] && jsIncludes (lowerStr t) (strOf "boolean") then
            .bool (lowerStr (jsDisplay mf.value) = strOf "true")
          else mf.value
        | none => mf.value
      setNs fields mf.ns mf.key coerced

/-- part_000 `normalizePrice(v)` (lines 57-61). -/
def normalizePrice (v : JSVal) : Option JStr :=
  let emptyStr : Bool := match v with | .str [] => true | _ => false
  if v.isNullish || emptyStr then none
  else
    match jsToNumber v with
    | some n => some (decToString n)
    | none => some (jsDisplay v)

/-- A variant node of part_000's GraphQL query (lines 141-157). -/
structure VNode where
  id : JStr
  title : JStr
  sku : JStr
  inventoryQuantity : Option Int
  price : JSVal
  metafields : List MFEntry

/-- The variant connection with its page info (lines 139-159). -/
structure VarConn where
  edges : List VNode
  hasNextPage : Bool
  endCursor : Option JStr

/-- A product node of part_000's GraphQL query (lines 121-160). -/
structure Node where
  id : JStr
  title : JStr
  handle : JStr
  tags : List JStr
  productType : JStr
  images : List JStr
  metafields : List MFEntry
  variants : VarConn

/-- A row of part_000 (lines 238-254). -/
structure P0Row where
  productId : JStr
  variantId : JStr
  title : JStr
  handle : JStr
  cultivar : Option JStr
  sku : Option JStr
  price : Option JStr
  qty : Option Int
  productType : Option JStr
  url : Option JStr
  image : Option JStr
  tags : Option JStr
  metafieldsProduct : JSVal
  metafieldsVariant : JSVal
  plantHeight : Option JStr
  plantCaliper : Option JStr

/-- Result of `mapProductNodeToRows`: the blue branch returns the bare rows
array (line 219), every other product returns the record of line 265. -/
inductive MapResult where
  | earlyRows (rows : List P0Row)
  | info (rows : List P0Row) (needsVariantPagination : Bool)
      (productId : JStr) (variantCursor : Option JStr)

/-- Rows of a `MapResult` (`mapped.rows`; `earlyRows` has no `.rows` own
property in JS — reading it yields `undefined`, modelled as `[]` never being
read because `fetchAllRows` only receives blue products when their
metafields mark them blue). -/
def MapResult.rows : MapResult → List P0Row
  | .earlyRows _ => []
  | .info rows _ _ _ => rows

/-- The row for one variant node (part_000 lines 233-255). -/
def pushVariant (node : Node) (storeDomain : JStr) (productMF : JSVal)
    (vNode : VNode) : P0Row :=
  let vMF := metafieldsArrayToObject vNode.metafields
  let cultivar : Option JStr :=
    if vNode.title ≠ [] && vNode.title ≠ strOf "Default Title" then some vNode.title
    else none
  { productId := node.id
    variantId := vNode.id
    title := node.title
    handle := node.handle
    cultivar := cultivar
    sku := if vNode.sku ≠ [] then some vNode.sku else cultivar
    price := normalizePrice vNode.price
    qty := vNode.inventoryQuantity
    productType := if node.productType = [] then none else some node.productType
    url := if node.handle = [] then none
           else some (strOf "https://" ++ storeDomain ++ strOf "/products/" ++ node.handle)
    image := match node.images with
      | [] => none
      | u :: _ => if u = [] then none else some u
    tags := some (joinSep (strOf ", ") node.tags)
    metafieldsProduct := productMF
    metafieldsVariant := vMF
    plantHeight := normalizeMeasureFromJSONish
      (getFieldD (getFieldD vMF (strOf "custom")) (strOf "plant_height")) (strOf "in")
    plantCaliper := normalizeMeasureFromJSONish
      (getFieldD (getFieldD vMF (strOf "custom")) (strOf "plant_caliper")) (strOf "in") }

/-- part_000 `mapProductNodeToRows(node, storeDomain)` (lines 214-266). -/
def mapProductNodeToRows (node : Node) (storeDomain : JStr) : MapResult :=
  let productMF := metafieldsArrayToObject node.metafields
  let isBlue := isBlueByMetafields productMF (joinSep (strOf ", ") node.tags)
  if isBlue then .earlyRows []
  else
    .info ((node.variants.edges).map (pushVariant node storeDomain productMF))
      node.variants.hasNextPage node.id node.variants.endCursor

/-- Truthiness parse of a query flag:
`["1","true","yes"].includes(String(q||"").toLowerCase())` (lines 333-334). -/
def parseFlag (q : Option JStr) : Bool :=
  let s := lowerStr (q.getD [])
  s = strOf "1" || s = strOf "true" || s = strOf "yes"

/-- `req.query.productType ? String(req.query.productType).toLowerCase() :
null` (line 335). -/
def ptOf (q : Option JStr) : Option JStr :=
  match q with
  | some s => if s ≠ [] then some (lowerStr s) else none
  | none => none

/-- The two row filters of part_000's handler (lines 343-348): optional
product-type filter, then the out-of-stock filter unless `showOut`. -/
def filterItems (rows : List P0Row) (pt : Option JStr) (showOut : Bool) :
    List P0Row :=
  let items := match pt with
    | some t => rows.filter (fun r => lowerStr (r.productType.getD []) = t)
    | none => rows
  if showOut then items
  else items.filter (fun r => match r.qty with
    | some n => decide (0 < n)
    | none => false)

/-- The minimal shape of part_000 (lines 352-361). -/
structure P0Min where
  title : JStr
  cultivar : Option JStr
  plantCaliper : Option JStr
  plantHeight : Option JStr
  sku : Option JStr
  price : Option JStr
  qty : Option Int
  url : Option JStr

/-- Projection to the minimal shape (lines 352-361). -/
def toMinimal (i : P0Row) : P0Min :=
  { title := i.title
    cultivar := i.cultivar
    plantCaliper := i.plantCaliper
    plantHeight := i.plantHeight
    sku := i.sku
    price := i.price
    qty := i.qty
    url := i.url }

/-- An emitted item: the full or the minimal shape. -/
inductive P0Out where
  | full (r : P0Row)
  | compact (m : P0Min)

/-- The item list part_000's handler responds with (lines 340-364), given
the flattened rows: filters first, then the optional minimal projection. -/
def handlerItems (rows : List P0Row) (minimal showOut : Bool)
    (pt : Option JStr) : List P0Out :=
  let items := filterItems rows pt showOut
  if minimal then items.map (fun i => .compact (toMinimal i))
  else items.map .full

/-- The `qty` field of an emitted item (present in both shapes). -/
def outQty : P0Out → Option Int
  | .full r => r.qty
  | .compact m => m.qty

end P000

/-! ## part_001 (REST revision with bulk metafields and no stock filter) -/

namespace P001

/-- A REST variant (fields used by part_001). -/
structure P1Variant where
  sku : JStr
  price : Option JStr
  inventory_quantity : Option Int

/-- A REST product (fields requested by part_001 line 82). -/
structure P1Product where
  id : JStr
  title : JStr
  handle : JStr
  images : List JStr
  variants : List P1Variant
  product_type : JStr
  tags : JStr

/-- The per-product metafield selection built by `buildMetaMap`. -/
structure P1Meta where
  commonName : Option JStr
  plantCaliper : Option JStr

/-- part_001 `productHasExcludedTag(p)` (lines 117-122): the REST `tags`
field is a comma-separated string. -/
def productHasExcludedTag (tags : JStr) : Bool :=
  if tags = [] then false
  else (splitOnP (fun ch => ch = ',') tags).any
    (fun t => jsIncludes (lowerStr (jsTrim t)) (strOf "blue"))

/-- `x || null` collapsing the empty string to `null`. -/
def orNullS : Option JStr → Option JStr
  | some s => if s = [] then none else some s
  | none => none

/-- A row of part_001 (lines 134-143). -/
structure P1Row where
  title : JStr
  commonName : Option JStr
  plantCaliper : Option JStr
  sku : Option JStr
  price : Option JStr
  qty : Option Int
  url : Option JStr
  image : Option JStr
  deriving DecidableEq

/-- part_001 `mapProductsToRows(products, metaMap)` (lines 124-147). -/
def mapProductsToRows (products : List P1Product)
    (metaMap : List (JStr × P1Meta)) : List P1Row :=
  products.flatMap (fun p =>
    if productHasExcludedTag p.tags then []
    else
      let img : Option JStr := match p.images with
        | [] => none
        | u :: _ => if u = [] then none else some u
      let meta := ((metaMap.find? (fun e => e.1 = p.id)).map (·.2)).getD ⟨none, none⟩
      p.variants.map (fun v =>
        { title := p.title
          commonName := orNullS meta.commonName
          plantCaliper := orNullS meta.plantCaliper
          sku := if v.sku = [] then none else some v.sku
          price := v.price
          qty := v.inventory_quantity
          url := if p.handle = [] then none
                 else some (Inv.publicStoreDomain ++ strOf "/products/" ++ p.handle)
          image := img }))

/-- The item list part_001's handler responds with (lines 160-179): the
flattened rows as-is — this revision applies no out-of-stock filter and no
query flags at all. -/
def handlerItems (products : List P1Product) (metaMap : List (JStr × P1Meta)) :
    List P1Row :=
  mapProductsToRows products metaMap

end P001

/-! ## part_002 (REST revision with minimal mode applied inside the mapper) -/

namespace P002

/-- A REST variant (fields used by part_002). -/
structure P2Variant where
  id : JStr
  title : JStr
  sku : JStr
  price : Option JStr
  inventory_quantity : Option Int

/-- A REST product of part_002 (line 31); `metafields` is whatever the
response carried (`undefined` for the REST products endpoint). -/
structure P2Product where
  id : JStr
  title : JStr
  handle : JStr
  product_type : JStr
  tags : JStr
  images : List JStr
  metafields : JSVal
  variants : List P2Variant

/-- A full row of part_002 (lines 127-143). -/
structure P2Full where
  productId : JStr
  variantId : JStr
  title : JStr
  handle : JStr
  cultivar : Option JStr
  sku : Option JStr
  price : Option JStr
  qty : Option Int
  productType : Option JStr
  url : Option JStr
  plantCaliper : Option JStr
  plantHeight : Option JStr
  image : Option JStr
  tags : Option JStr
  metafields : JSVal

/-- The minimal row shape of part_002 (lines 146-155). -/
structure P2Min where
  title : JStr
  cultivar : Option JStr
  plantCaliper : Option JStr
  plantHeight : Option JStr
  sku : Option JStr
  price : Option JStr
  qty : Option Int
  url : Option JStr

/-- An emitted row of part_002: full or minimal. -/
inductive P2Out where
  | full (r : P2Full)
  | min (m : P2Min)

/-- `mf?.custom?.<key>` followed by the object test of lines 116-124:
objects pass through, otherwise `?? null`. -/
def rawMeasure (mf : JSVal) (key : JStr) : JSVal :=
  let cal := getFieldD (getFieldD mf (strOf "custom")) key
  if jsTruthy cal && cal.isObjectType then cal
  else if cal.isNullish then .null else cal

/-- part_002 `mapProductsToRows(products, { minimal, excludeBlue })`
(lines 106-162). -/
def mapProductsToRows (products : List P2Product) (storeDomain : JStr)
    (minimal excludeBlue : Bool) : List P2Out :=
  products.flatMap (fun p =>
    let img : Option JStr := match p.images with
      | [] => none
      | u :: _ => if u = [] then none else some u
    let mf := jsOr p.metafields .null
    let blue := if excludeBlue then isBlueByMetafields mf p.tags else false
    if blue then []
    else
      let caliperRaw := rawMeasure mf (strOf "plant_caliper")
      let heightRaw := rawMeasure mf (strOf "plant_height")
      p.variants.map (fun v =>
        let cultivar : Option JStr :=
          if v.title ≠ [] && v.title ≠ strOf "Default Title" then some v.title else none
        let base : P2Full :=
          { productId := p.id
            variantId := v.id
            title := p.title
            handle := p.handle
            cultivar := cultivar
            sku := if v.sku = [] then none else some v.sku
            price := v.price
            qty := v.inventory_quantity
            productType := if p.product_type = [] then none else some p.product_type
            url := if p.handle = [] then none
                   else some (strOf "https://" ++ storeDomain ++ strOf "/products/" ++ p.handle)
            plantCaliper := normalizeMeasure caliperRaw (strOf "in")
            plantHeight := normalizeMeasure heightRaw (strOf "in")
            image := img
            tags := if p.tags = [] then none else some p.tags
            metafields := jsOr mf .null }
        if minimal then
          .min { title := base.title
                 cultivar := base.cultivar
                 plantCaliper := base.plantCaliper
                 plantHeight := base.plantHeight
                 sku := base.sku
                 price := base.price
                 qty := base.qty
                 url := base.url }
        else .full base))

/-- `i.productType` as read by the handler's filter: minimal rows carry no
such field, so the read yields `undefined`. -/
def outProductType : P2Out → Option JStr
  | .full r => r.productType
  | .min _ => none

/-- `i.qty` as read by the handler's filter (present in both shapes). -/
def outQty : P2Out → Option Int
  | .full r => r.qty
  | .min m => m.qty

/-- The item pipeline of part_002's handler (lines 173-184): the mapper is
called with the `minimal` flag, then the product-type filter and the
out-of-stock filter run over the already-shaped items. -/
def handlerItems (products : List P2Product) (storeDomain : JStr)
    (minimalQ showOutQ ptQ : Option JStr) : List P2Out :=
  let minimal := P000.parseFlag minimalQ
  let showOut := P000.parseFlag showOutQ
  let pt := P000.ptOf ptQ
  let items := mapProductsToRows products storeDomain minimal true
  let items1 := match pt with
    | some t => items.filter (fun i => lowerStr ((outProductType i).getD []) = t)
    | none => items
  if showOut then items1
  else items1.filter (fun i => match outQty i with
    | some n => decide (0 < n)
    | none => false)

end P002

/-! ## Rate-limited pagers

The network is modelled as an explicit upstream oracle: keyed by URL for the
REST pager (`fetchPagedJson`), and by call index for the GraphQL fetchers
(the same request may be answered differently over time, e.g. a 429 followed
by a 200).  The unbounded `while (true)` retry loops become fuel-indexed
recursion, `none` modelling non-termination; sleeps are collected as an
explicit trace of milliseconds. -/

/-- Value comparison of decimals: `a ≤ b`.  The mantissa on the side with
the larger exponent is scaled up to the common (smaller) exponent. -/
def decLe (a b : Dec) : Bool :=
  if a.e ≤ b.e then a.m ≤ b.m * (pow10 (b.e - a.e).toNat : Nat)
  else a.m * (pow10 (a.e - b.e).toNat : Nat) ≤ b.m

/-- `Math.min` on two finite numbers. -/
def decMin (a b : Dec) : Dec := if decLe a b then a else b

/-- Multiply a decimal by 1000 (seconds to milliseconds). -/
def decMul1000 (d : Dec) : Dec := ⟨d.m, d.e + 3⟩

/-- The exact rational value `m * 10 ^ e` of a decimal. -/
def decVal (d : Dec) : ℚ := (d.m : ℚ) * (10 : ℚ) ^ d.e

/-- `Math.min(Number(header || "2"), 5) * 1000`: the capped retry sleep in
milliseconds (inventory.js line 51-52, part_001 lines 61-62).  A
non-numeric header makes the product `NaN`, and `setTimeout(NaN)` fires
immediately, i.e. a zero sleep. -/
def retrySleepMsCapped (h : Option JStr) : Dec :=
  match jsNumberOfString (orS (h.getD []) (strOf "2")) with
  | some q => decMul1000 (decMin q ⟨5, 0⟩)
  | none => ⟨0, 0⟩

/-- `Number(header || "2") * 1000` without a cap (part_000 lines 97-98). -/
def retrySleepMsUncapped (h : Option JStr) : Dec :=
  match jsNumberOfString (orS (h.getD []) (strOf "2")) with
  | some q => decMul1000 q
  | none => ⟨0, 0⟩

namespace P001

/-- `links[rel] = url`: JS object assignment as assoc update. -/
def assocSet (links : List (JStr × JStr)) (rel url : JStr) : List (JStr × JStr) :=
  match links with
  | [] => [(rel, url)]
  | (r, u) :: rest =>
    if r = rel then (rel, url) :: rest else (r, u) :: assocSet rest rel url

/-- `rawUrl.trim().replace(/^<|>$/g, "")`: strip one leading `<` and one
trailing `>`. -/
def stripAngles (s : JStr) : JStr :=
  let s1 := match s with
    | '<' :: r => r
    | _ => s
  match s1.reverse with
  | '>' :: r => r.reverse
  | _ => s1

/-- First match of `/rel="(.+?)"/`: scan for `rel="`, then capture lazily up
to the next quote (at least one character). -/
def relCapture : JStr → Option JStr
  | [] => none
  | c :: rest =>
    if (strOf "rel=\"").isPrefixOf (c :: rest) then
      let after := (c :: rest).drop 5
      match after with
      | '"' :: _ => relCapture rest
      | _ =>
        let (cap, r) := after.span (fun ch => ch ≠ '"')
        match r with
        | '"' :: _ => some cap
        | _ => relCapture rest
    else relCapture rest

/-- part_001 `parseLinkHeader(linkHeader)` (lines 37-48). -/
def parseLinkHeader (linkHeader : Option JStr) : List (JStr × JStr) :=
  match linkHeader with
  | none => []
  | some h =>
    if h = [] then []
    else
      (splitOnP (fun ch => ch = ',') h).foldl
        (fun links part =>
          let pieces := splitOnP (fun ch => ch = ';') part
          let rawUrl := pieces.headD []
          let rawRel := (pieces.drop 1).headD []
          if rawUrl = [] || rawRel = [] then links
          else
            let url := stripAngles (jsTrim rawUrl)
            match relCapture rawRel with
            | some rel => if rel = [] then links else assocSet links rel url
            | none => links)
        []

/-- The `next` link of a parsed link header. -/
def nextLink (links : List (JStr × JStr)) : Option JStr :=
  (links.find? (fun p => p.1 = strOf "next")).map (·.2)

/-- A paged JSON response body: the pager pushes `data.products`, else
`data.metafields`, else the whole payload (lines 70-73). -/
inductive PBody (α : Type) where
  | withProducts (items : List α)
  | withMetafields (items : List α)
  | plain (x : α)

/-- Items contributed by one response body. -/
def PBody.items : PBody α → List α
  | .withProducts xs => xs
  | .withMetafields xs => xs
  | .plain x => [x]

/-- An upstream HTTP response as observed by `fetchPagedJson`. -/
structure PResp (α : Type) where
  status : Nat
  statusText : JStr
  bodyText : JStr
  retryAfter : Option JStr
  link : Option JStr
  body : PBody α

/-- part_001 `fetchPagedJson(url)` (lines 50-79): follow `rel="next"` links,
retrying the same URL on 429 with a capped sleep, failing on any other
non-2xx status.  Returns the accumulated items and the sleep trace; `none`
is non-termination (fuel exhaustion). -/
def fetchPagedJson (up : JStr → PResp α) :
    Nat → JStr → List α → List Dec → Option (Except JStr (List α) × List Dec)
  | 0, _, _, _ => none
  | fuel + 1, url, out, sleeps =>
    let res := up url
    if res.status = 429 then
      fetchPagedJson up fuel url out (sleeps ++ [retrySleepMsCapped res.retryAfter])
    else if ¬ (200 ≤ res.status && res.status ≤ 299) then
      some (.error (url ++ strOf " -> " ++ natToChars res.status ++ ' ' :: res.statusText
        ++ strOf ": " ++ orS res.bodyText (strOf "request failed")), sleeps)
    else
      let out' := out ++ res.body.items
      match nextLink (parseLinkHeader res.link) with
      | some u => fetchPagedJson up fuel u out' sleeps
      | none => some (.ok out', sleeps)

/-- The upstream serves, from `url`, the given non-empty sequence of
200-pages: each page carries its items as `data.products`, a
`Link: rel="next"` header to the next page except on the last one. -/
def IsChain (up : JStr → PResp α) : JStr → List (List α) → Prop
  | _, [] => False
  | url, items :: rest =>
    (up url).status = 200 ∧
    (match (up url).body with
     | .withProducts xs => xs = items
     | _ => False) ∧
    (match rest with
     | [] => nextLink (parseLinkHeader (up url).link) = none
     | _ :: _ => ∃ u', nextLink (parseLinkHeader (up url).link) = some u' ∧
         IsChain up u' rest)

end P001

namespace Inv

/-- An upstream GraphQL HTTP response, by call index: HTTP status and
headers, plus the decoded JSON body (`errors` is the stringified
`data.errors` when present, `data` the `data.data` payload). -/
structure GResp (α : Type) where
  status : Nat
  statusText : JStr
  bodyText : JStr
  retryAfter : Option JStr
  errors : Option JStr
  data : α

/-- The message of the error thrown by inventory.js `gqlFetch` on a
non-2xx, non-429 response (line 57):
`GraphQL ${status} ${statusText}: ${text || "request failed"}`. -/
def gqlErrMsg (res : GResp α) : JStr :=
  strOf "GraphQL " ++ natToChars res.status ++ ' ' :: res.statusText
    ++ strOf ": " ++ orS res.bodyText (strOf "request failed")

/-- inventory.js `gqlFetch(query, variables)` (lines 39-64): retry forever
on 429 with a capped sleep (the query and variables of the re-issued request
are the same locals, hence identical); throw on other non-2xx statuses and
on GraphQL errors.  Returns the result, the sleep trace and the number of
upstream calls made. -/
def gqlFetch (up : Nat → GResp α) :
    Nat → Nat → List Dec → Option (Except JStr α × List Dec × Nat)
  | 0, _, _ => none
  | fuel + 1, k, sleeps =>
    let res := up k
    if res.status = 429 then
      gqlFetch up fuel (k + 1) (sleeps ++ [retrySleepMsCapped res.retryAfter])
    else if ¬ (200 ≤ res.status && res.status ≤ 299) then
      some (.error (gqlErrMsg res), sleeps, k + 1)
    else
      match res.errors with
      | some e => some (.error (strOf "GraphQL errors: " ++ e), sleeps, k + 1)
      | none => some (.ok res.data, sleeps, k + 1)

/-- One edge of the products connection. -/
structure GEdge where
  cursor : JStr
  node : Product

/-- `data.products`: the edges and `pageInfo.hasNextPage`. -/
structure GPage where
  edges : List GEdge
  hasNextPage : Bool

/-- inventory.js `fetchAllProducts(ns, keyCommon, keyCaliper)` (lines
157-170): accumulate `edges[*].node` page by page while `hasNextPage` holds
and pages are non-empty.  The `after` cursor of the next request is the last
edge's cursor; the upstream oracle is indexed by call count, which the
cursor does not influence in the model.  Also returns the call count. -/
def fetchAllProducts (up : Nat → GResp (Option GPage)) :
    Nat → Nat → List Product → Option (Except JStr (List Product) × Nat)
  | 0, _, _ => none
  | fuel + 1, k, out =>
    match gqlFetch up (fuel + 1) k [] with
    | none => none
    | some (.error e, _, k') => some (.error e, k')
    | some (.ok pd, _, k') =>
      let edges := match pd with
        | some g => g.edges
        | none => []
      let out' := out ++ edges.map (·.node)
      let hasNext := match pd with
        | some g => g.hasNextPage
        | none => false
      if !hasNext || edges.isEmpty then some (.ok out', k')
      else fetchAllProducts up fuel k' out'

/-- The upstream serves, from call index `k`, this sequence of successful
GraphQL pages: each response is a 200 without GraphQL errors whose
`data.products` has the given edges, `hasNextPage` exactly while pages
remain, and non-empty edges on every page but possibly the last (the loop
also stops on an empty page). -/
def IsGqlChain (up : Nat → GResp (Option GPage)) : Nat → List (List GEdge) → Prop
  | _, [] => False
  | k, edges :: rest =>
    (up k).status = 200 ∧ (up k).errors = none ∧
    (up k).data = some ⟨edges, match rest with | [] => false | _ :: _ => true⟩ ∧
    (match rest with
     | [] => True
     | _ :: _ => edges ≠ [] ∧ IsGqlChain up (k + 1) rest)

/-- A handler response body: the success payload or the error payload
`{ ok: false, error }`. -/
inductive HBody where
  | success (count : Nat) (items : List Row)
  | failure (error : JStr)

/-- inventory.js default export `handler` (lines 200-222), reduced to its
status/body behaviour: env-var guard, fetch + map pipeline, catch-all
`500 { ok: false, error: err.message }`. -/
def handler (envOk : Bool) (up : Nat → GResp (Option GPage)) (fuel : Nat) :
    Option (Nat × HBody) :=
  if ¬ envOk then
    some (500, .failure (strOf "Missing env vars: SHOPIFY_STORE_DOMAIN and/or SHOPIFY_ADMIN_TOKEN"))
  else
    match fetchAllProducts up fuel 0 [] with
    | none => none
    | some (.ok products, _) =>
      let items := mapToRows products
      some (200, .success items.length items)
    | some (.error e, _) =>
      some (500, .failure (orS e (strOf "Internal error")))

end Inv

namespace P000

/-- part_000 `gqlFetch(query, variables, attempt)` (lines 84-112): like the
inventory.js fetcher but recursive in `attempt` and with an *uncapped*
retry sleep; the error message format is `GraphQL ${status}: ${text ||
statusText}`. -/
def gqlFetch (up : Nat → Inv.GResp α) :
    Nat → Nat → List Dec → Option (Except JStr α × List Dec × Nat)
  | 0, _, _ => none
  | fuel + 1, k, sleeps =>
    let res := up k
    if res.status = 429 then
      gqlFetch up fuel (k + 1) (sleeps ++ [retrySleepMsUncapped res.retryAfter])
    else if ¬ (200 ≤ res.status && res.status ≤ 299) then
      some (.error (strOf "GraphQL " ++ natToChars res.status ++ strOf ": "
        ++ orS res.bodyText res.statusText), sleeps, k + 1)
    else
      match res.errors with
      | some e => some (.error (strOf "GraphQL errors: " ++ e), sleeps, k + 1)
      | none => some (.ok res.data, sleeps, k + 1)

end P000

/-! ## Concrete fixtures used by witnesses and counterexamples -/

/-- A part_000 GraphQL product node tagged `"Blue Spruce"` whose metafield
list is empty (the usual case for a product with no custom metafields). -/
def blueTaggedNode : P000.Node :=
  { id := strOf "gid-p1"
    title := strOf "Blue Spruce"
    handle := strOf "blue-spruce"
    tags := [strOf "Blue Spruce"]
    productType := strOf "Tree"
    images := [strOf "https://img/1.png"]
    metafields := []
    variants :=
      { edges := [{ id := strOf "gid-v1"
                    title := strOf "Default Title"
                    sku := strOf "BS-1"
                    inventoryQuantity := some 5
                    price := .str (strOf "10.00")
                    metafields := [] }]
        hasNextPage := false
        endCursor := none } }

/-- A part_001 REST product with a single variant whose inventory quantity
is zero, and no `"blue"` tag. -/
def zeroQtyProduct : P001.P1Product :=
  { id := strOf "101"
    title := strOf "Maple"
    handle := strOf "maple"
    images := [strOf "https://img/m.png"]
    variants := [{ sku := strOf "M-1", price := some (strOf "25.00"),
                   inventory_quantity := some 0 }]
    product_type := strOf "Tree"
    tags := strOf "" }

/-- A part_002 REST product of type `"Tree"` with one in-stock variant. -/
def treeProduct : P002.P2Product :=
  { id := strOf "201"
    title := strOf "Oak"
    handle := strOf "oak"
    product_type := strOf "Tree"
    tags := strOf ""
    images := [strOf "https://img/o.png"]
    metafields := .undef
    variants := [{ id := strOf "v201", title := strOf "Default Title",
                   sku := strOf "O-1", price := some (strOf "30.00"),
                   inventory_quantity := some 5 }] }

/-- A flattened part_000 row with a positive quantity. -/
def wP0Row : P000.P0Row :=
  { productId := strOf "1"
    variantId := strOf "v1"
    title := strOf "Oak"
    handle := strOf "oak"
    cultivar := none
    sku := some (strOf "O-1")
    price := some (strOf "30.00")
    qty := some 3
    productType := some (strOf "Tree")
    url := none
    image := none
    tags := some []
    metafieldsProduct := .obj []
    metafieldsVariant := .obj []
    plantHeight := none
    plantCaliper := none }

/-- The single variant of `wProduct`, with a variant-level caliper. -/
def wVariant : Inv.Variant :=
  { sku := strOf "O-1"
    price := some (strOf "30.00")
    inventoryQuantity := some 2
    caliperVariant := some ⟨.str (strOf "4 in"), some (strOf "single_line_text_field")⟩ }

/-- An inventory.js product used in witnesses: no excluded tag, one
variant carrying a variant-level caliper metafield. -/
def wProduct : Inv.Product :=
  { title := strOf "Oak"
    handle := strOf "oak"
    tags := some [strOf "shade"]
    images := []
    common := some (strOf "Oak")
    caliperProduct := some ⟨.str (strOf "9 cm"), some (strOf "single_line_text_field")⟩
    variants := [wVariant] }

/-- An upstream that always answers HTTP 500 with body `"boom"`. -/
def errUpstream : Nat → Inv.GResp (Option Inv.GPage) := fun _ =>
  { status := 500
    statusText := strOf "Internal Server Error"
    bodyText := strOf "boom"
    retryAfter := none
    errors := none
    data := none }

/-- An upstream that throttles the first call with `Retry-After: 60` and
then answers 200 with payload `7`. -/
def throttleUpstream : Nat → Inv.GResp Nat := fun k =>
  if k = 0 then
    { status := 429, statusText := strOf "Too Many Requests", bodyText := [],
      retryAfter := some (strOf "60"), errors := none, data := 0 }
  else
    { status := 200, statusText := strOf "OK", bodyText := [],
      retryAfter := none, errors := none, data := 7 }

/-- An upstream that throttles the first call with `Retry-After: 1` and
then answers 200 with payload `5`. -/
def retryOnceUpstream : Nat → Inv.GResp Nat := fun k =>
  if k = 0 then
    { status := 429, statusText := strOf "Too Many Requests", bodyText := [],
      retryAfter := some (strOf "1"), errors := none, data := 0 }
  else
    { status := 200, statusText := strOf "OK", bodyText := [],
      retryAfter := none, errors := none, data := 5 }

/-- Items of the three pages of the pagination scenario: 250, 250 and 10
items, globally numbered so that order is observable. -/
def scenarioPages : List (List Nat) :=
  [List.range 250, (List.range 250).map (· + 250), (List.range 10).map (· + 500)]

/-- The REST upstream of the pagination scenario: three 200-pages carrying
`Link: rel="next"` headers on pages 1 and 2 and none on page 3. -/
def chainUpstream : JStr → P001.PResp Nat := fun url =>
  if url = strOf "https://s/page2" then
    { status := 200, statusText := strOf "OK", bodyText := [], retryAfter := none,
      link := some (strOf "<https://s/page3>; rel=\"next\""),
      body := .withProducts ((List.range 250).map (· + 250)) }
  else if url = strOf "https://s/page3" then
    { status := 200, statusText := strOf "OK", bodyText := [], retryAfter := none,
      link := none, body := .withProducts ((List.range 10).map (· + 500)) }
  else
    { status := 200, statusText := strOf "OK", bodyText := [], retryAfter := none,
      link := some (strOf "<https://s/page2>; rel=\"next\""),
      body := .withProducts (List.range 250) }

/-- An inventory.js product carrying a `"blue"` tag (case-insensitive),
with an in-stock variant. -/
def blueProduct : Inv.Product :=
  { title := strOf "Blue Spruce"
    handle := strOf "blue-spruce"
    tags := some [strOf "Blue Spruce"]
    images := []
    common := none
    caliperProduct := none
    variants := [{ sku := strOf "BS-1"
                   price := some (strOf "10.00")
                   inventoryQuantity := some 7
                   caliperVariant := none }] }

/-- The shape `\d+(\.\d+)?` produced by the measure regex's numeric
capture: digits, optionally a dot followed by more digits. -/
def numShape (s : JStr) : Bool :=
  let (ds, r) := s.span isDigit
  ds ≠ [] &&
    (match r with
     | [] => true
     | '.' :: t => t ≠ [] && t.all isDigit
     | _ => false)

/-- A non-empty ASCII-letter word, the regex's unit capture shape. -/
def alphaWord (s : JStr) : Bool := s ≠ [] && s.all isAlpha

/-! ## Theorems -/

/-- C1: the metafield normalizer satisfies the spec's concrete examples —
the structured input `{value: 4, unit: "INCHES"}` normalizes to `"4 in"`,
the plain string `"4 INCHES"` normalizes to `"4 in"`, the empty string
normalizes to `null`, and a non-numeric string such as `"not a number"`
is returned unchanged. -/
theorem normalizer_spec_examples :
    normalizeMeasureFromJSONish
      (.obj [(strOf "value", .num ⟨4, 0⟩), (strOf "unit", .str (strOf "INCHES"))])
      (strOf "in") = some (strOf "4 in") ∧
    normalizeMeasureFromJSONish (.str (strOf "4 INCHES")) (strOf "in")
      = some (strOf "4 in") ∧
    normalizeMeasureFromJSONish (.str []) (strOf "in") = none ∧
    normalizeMeasureFromJSONish (.str (strOf "not a number")) (strOf "in")
      = some (strOf "not a number") :=
  ⟨by decide, by decide, by decide, by decide⟩

/-- C10: in the dimension-normalizing GraphQL revision, the variant-level
caliper metafield takes precedence: `pickCaliper` returns the normalized
variant metafield whenever it is non-null and non-empty and falls back to
the normalized product metafield only otherwise, and every row the mapper
emits stems from one (product, variant) pair and carries exactly
`pickCaliper` of that pair's metafields as its `plantCaliper`. -/
theorem pickCaliper_variant_precedence :
    (∀ (pmf vmf : Option DimMF),
      (strOptTruthy (normalizeDimension vmf) = true →
        pickCaliper pmf vmf = normalizeDimension vmf) ∧
      (strOptTruthy (normalizeDimension vmf) = false →
        pickCaliper pmf vmf =
          if strOptTruthy (normalizeDimension pmf) then normalizeDimension pmf
          else none)) ∧
    (∀ (products : List Inv.Product) (row : Inv.Row),
      row ∈ Inv.mapToRows products →
      ∃ p ∈ products, ∃ v ∈ p.variants,
        row = Inv.mkRow p v ∧
        row.plantCaliper = pickCaliper p.caliperProduct v.caliperVariant) := by
  constructor
  · intro pmf vmf
    constructor
    · intro h
      simp only [pickCaliper, h, if_pos]
    · intro h
      simp only [pickCaliper, h, Bool.false_eq_true, if_false]
  · intro products row hrow
    rcases List.mem_flatMap.mp hrow with ⟨p, hp, hmem⟩
    by_cases hex : Inv.hasExcludedTag p.tags
    · simp [hex] at hmem
    · simp only [hex, Bool.false_eq_true, if_false] at hmem
      rcases List.mem_map.mp hmem with ⟨v, hv, hrv⟩
      exact ⟨p, hp, v, hv, hrv.symm, by rw [← hrv]; rfl⟩

/-- C10 witness: the precedence theorem applied to a concrete product whose
variant carries the caliper `"4 in"` while the product level says `"9 cm"`:
the emitted row exists in the mapper output and its `plantCaliper` is the
variant's value. -/
theorem pickCaliper_variant_precedence_witness :
    Inv.mkRow wProduct wVariant ∈ Inv.mapToRows [wProduct] ∧
    ∃ p ∈ [wProduct], ∃ v ∈ p.variants,
      Inv.mkRow wProduct wVariant = Inv.mkRow p v ∧
      (Inv.mkRow wProduct wVariant).plantCaliper
        = pickCaliper p.caliperProduct v.caliperVariant :=
  ⟨by decide, pickCaliper_variant_precedence.2 [wProduct] _ (by decide)⟩

/-- C4 counterexample: in part_000 the claim fails.  `mapProductNodeToRows`
decides exclusion with `isBlueByMetafields`, whose tag fallback is dead
code in that flow because `metafieldsArrayToObject` always returns an
object: a product tagged `"Blue Spruce"` (which case-insensitively contains
`"blue"`) whose metafields do not mark it blue still emits its variant
row. -/
theorem p000_blue_tag_not_excluded :
    (∃ t ∈ blueTaggedNode.tags, jsIncludes (lowerStr t) (strOf "blue") = true) ∧
    (P000.mapProductNodeToRows blueTaggedNode (strOf "shop.example.com")).rows.length = 1 := by
  constructor
  · exact ⟨strOf "Blue Spruce", by decide, by decide⟩
  · decide

/-- C4 (amended): in the revisions whose row mapper filters on tags
directly — api/inventory.js `mapToRows` with `hasExcludedTag`, and
part_001's `mapProductsToRows` with `productHasExcludedTag` — a product
with a tag case-insensitively containing `"blue"` contributes zero rows,
whatever its variants: deleting such a product from the input leaves the
output unchanged.  (In part_000, tag-based exclusion is only a dead
fallback of the metafield check; see the counterexample.) -/
theorem mapToRows_excludes_blue_tagged (pre post : List Inv.Product)
    (p : Inv.Product) (hp : Inv.hasExcludedTag p.tags = true)
    (pre1 post1 : List P001.P1Product) (p1 : P001.P1Product)
    (hp1 : P001.productHasExcludedTag p1.tags = true) :
    Inv.mapToRows (pre ++ p :: post) = Inv.mapToRows (pre ++ post) ∧
    P001.mapProductsToRows (pre1 ++ p1 :: post1)
      = fun metaMap => P001.mapProductsToRows (pre1 ++ post1) metaMap := by
  constructor
  · unfold Inv.mapToRows
    rw [List.flatMap_append, List.flatMap_cons, hp]
    simp [List.flatMap_append]
  · funext metaMap
    unfold P001.mapProductsToRows
    rw [List.flatMap_append, List.flatMap_cons, hp1]
    simp [List.flatMap_append]

/-- C4 witness: the exclusion theorem applied to the concrete blue-tagged
product inserted between two empty segments — its in-stock variant emits
nothing. -/
theorem mapToRows_excludes_blue_tagged_witness :
    Inv.hasExcludedTag blueProduct.tags = true ∧
    Inv.mapToRows ([] ++ blueProduct :: []) = Inv.mapToRows ([] ++ []) :=
  ⟨by decide,
    (mapToRows_excludes_blue_tagged [] [] blueProduct (by decide)
      [] [] { id := strOf "1", title := [], handle := [], images := [],
              variants := [], product_type := [], tags := strOf "blue" }
      (by decide)).1⟩

/-- C5 counterexample: part_001's handler (also cited by the claim) applies
no out-of-stock filter at all — it emits `mapProductsToRows` verbatim, so a
variant with inventory quantity 0 appears in the success response whatever
the `showOutOfStock` query says (the handler reads no query parameters). -/
theorem p001_handler_emits_zero_qty :
    (P001.handlerItems [zeroQtyProduct] []).map P001.P1Row.qty = [some 0] := by
  decide

/-- C5 (amended): in part_000's handler (and part_002's), when the
`showOutOfStock` flag is absent or not one of `"1"/"true"/"yes"` — so that
it parses to `false`, the default — every emitted item carries a positive
integer `qty`; rows with zero, negative, or absent quantity are dropped.
part_001's handler has no such filter (see the counterexample). -/
theorem instock_filter_default :
    P000.parseFlag none = false ∧
    (∀ (rows : List P000.P0Row) (pt : Option JStr) (minimal : Bool)
       (i : P000.P0Out), i ∈ P000.handlerItems rows minimal false pt →
        ∃ n, P000.outQty i = some n ∧ 0 < n) ∧
    (∀ (products : List P002.P2Product) (dom : JStr) (mQ ptQ : Option JStr)
       (i : P002.P2Out), i ∈ P002.handlerItems products dom mQ none ptQ →
        ∃ n, P002.outQty i = some n ∧ 0 < n) := by
  refine ⟨by decide, ?_, ?_⟩
  · intro rows pt minimal i hi
    unfold P000.handlerItems at hi
    have hq : ∀ r ∈ P000.filterItems rows pt false, ∃ n, r.qty = some n ∧ 0 < n := by
      intro r hr
      unfold P000.filterItems at hr
      simp only [if_neg Bool.false_ne_true] at hr
      have := (List.mem_filter.mp hr).2
      match hqty : r.qty with
      | some n =>
        rw [hqty] at this
        exact ⟨n, rfl, by simpa using this⟩
      | none => rw [hqty] at this; simp at this
    by_cases hm : minimal
    · rw [if_pos hm] at hi
      rcases List.mem_map.mp hi with ⟨r, hr, hri⟩
      rcases hq r hr with ⟨n, h1, h2⟩
      exact ⟨n, by rw [← hri]; simpa [P000.outQty, P000.toMinimal] using h1, h2⟩
    · rw [if_neg hm] at hi
      rcases List.mem_map.mp hi with ⟨r, hr, hri⟩
      rcases hq r hr with ⟨n, h1, h2⟩
      exact ⟨n, by rw [← hri]; simpa [P000.outQty] using h1, h2⟩
  · intro products dom mQ ptQ i hi
    unfold P002.handlerItems at hi
    simp only [show P000.parseFlag none = false from by decide,
      if_neg Bool.false_ne_true] at hi
    have := (List.mem_filter.mp hi).2
    match hqty : P002.outQty i with
    | some n =>
      rw [hqty] at this
      exact ⟨n, rfl, by simpa using this⟩
    | none => rw [hqty] at this; simp at this

/-- C5 witness: the filter theorem applied to a concrete one-row input with
quantity 3: the emitted full item indeed has a positive quantity. -/
theorem instock_filter_default_witness :
    ∃ n, P000.outQty (.full wP0Row) = some n ∧ 0 < n :=
  instock_filter_default.2.1 [wP0Row] none false (.full wP0Row)
    (by rw [show P000.handlerItems [wP0Row] false false none
              = [.full wP0Row] from rfl]; exact List.mem_singleton_self _)

/-- C6 counterexample: in part_002 the minimal projection is applied by the
mapper *before* the handler's filters, and minimal rows carry no
`productType` field, so combining `minimal=true` with a `productType`
filter drops every row: the same one-product input yields 1 item in the
full shape and 0 items in the minimal shape under identical filters. -/
theorem p002_minimal_not_pure_projection :
    (P002.handlerItems [treeProduct] (strOf "x.myshopify.com")
      (some (strOf "true")) none (some (strOf "Tree"))).length = 0 ∧
    (P002.handlerItems [treeProduct] (strOf "x.myshopify.com")
      none none (some (strOf "Tree"))).length = 1 :=
  ⟨by decide, by decide⟩

/-- C6 (amended): in part_000's handler the minimal shape is a pure
field-wise projection applied after the filters: for every row set and
every filter combination, the minimal response has exactly as many items as
the full response, and the i-th minimal item is the fixed projection of the
i-th full item.  In part_002 the projection is applied before the
product-type filter and the counts can differ (see the counterexample). -/
theorem p000_minimal_pure_projection (rows : List P000.P0Row)
    (pt : Option JStr) (showOut : Bool) :
    (P000.handlerItems rows true showOut pt).length
      = (P000.handlerItems rows false showOut pt).length ∧
    ∀ (i : Nat) (h1 : i < (P000.handlerItems rows true showOut pt).length)
      (h2 : i < (P000.handlerItems rows false showOut pt).length),
      ∃ r : P000.P0Row,
        (P000.handlerItems rows true showOut pt).get ⟨i, h1⟩
          = .compact (P000.toMinimal r) ∧
        (P000.handlerItems rows false showOut pt).get ⟨i, h2⟩ = .full r := by
  constructor
  · simp [P000.handlerItems]
  · intro i h1 h2
    refine ⟨(P000.filterItems rows pt showOut).get
      ⟨i, by simpa [P000.handlerItems] using h1⟩, ?_, ?_⟩
    · simp [P000.handlerItems, List.get_map]
    · simp [P000.handlerItems, List.get_map]

/-- C6 witness: the projection theorem applied to the one-row input: the
minimal and full responses have the same length, and position 0 of the
minimal response is the projection of position 0 of the full response. -/
theorem p000_minimal_pure_projection_witness :
    (P000.handlerItems [wP0Row] true false none).length
      = (P000.handlerItems [wP0Row] false false none).length ∧
    ∃ r : P000.P0Row,
      (P000.handlerItems [wP0Row] true false none).get ⟨0, by decide⟩
        = .compact (P000.toMinimal r) ∧
      (P000.handlerItems [wP0Row] false false none).get ⟨0, by decide⟩ = .full r :=
  ⟨(p000_minimal_pure_projection [wP0Row] none false).1,
   (p000_minimal_pure_projection [wP0Row] none false).2 0 (by decide) (by decide)⟩


/-- C9: on any upstream response with a non-2xx status other than 429, the
pager fails immediately with an error whose message embeds the upstream
status code and response body, makes no retry (exactly one call, no
sleeps), and the handler propagates the failure as HTTP 500 with body
`{ ok: false, error: <message> }`. -/
theorem upstream_error_no_retry :
    (∀ (α : Type) (up : Nat → Inv.GResp α) (fuel : Nat),
      ¬ (200 ≤ (up 0).status ∧ (up 0).status ≤ 299) → (up 0).status ≠ 429 →
      Inv.gqlFetch up (fuel + 1) 0 []
        = some (.error (Inv.gqlErrMsg (up 0)), [], 1) ∧
      natToChars (up 0).status <:+: Inv.gqlErrMsg (up 0) ∧
      (up 0).bodyText <:+: Inv.gqlErrMsg (up 0)) ∧
    (∀ (up : Nat → Inv.GResp (Option Inv.GPage)) (fuel : Nat),
      ¬ (200 ≤ (up 0).status ∧ (up 0).status ≤ 299) → (up 0).status ≠ 429 →
      Inv.handler true up (fuel + 1) = some (500, .failure (Inv.gqlErrMsg (up 0)))) := by
  have key : ∀ (α : Type) (up : Nat → Inv.GResp α) (fuel : Nat),
      ¬ (200 ≤ (up 0).status ∧ (up 0).status ≤ 299) → (up 0).status ≠ 429 →
      Inv.gqlFetch up (fuel + 1) 0 []
        = some (.error (Inv.gqlErrMsg (up 0)), [], 1) := by
    intro α up fuel hno h429
    unfold Inv.gqlFetch
    simp only [if_neg h429]
    rw [if_pos]
    intro hcontra
    exact hno (by simpa using hcontra)
  have msgne : ∀ (α : Type) (r : Inv.GResp α), Inv.gqlErrMsg r ≠ [] := by
    intro α r
    show strOf "GraphQL " ++ _ ≠ []
    rw [show strOf "GraphQL " = 'G' :: strOf "raphQL " from rfl]
    simp
  constructor
  · intro α up fuel hno h429
    refine ⟨key α up fuel hno h429, ?_, ?_⟩
    · exact ⟨strOf "GraphQL ", ' ' :: (up 0).statusText ++ strOf ": "
        ++ orS (up 0).bodyText (strOf "request failed"), by simp [Inv.gqlErrMsg]⟩
    · by_cases hb : (up 0).bodyText = []
      · exact hb ▸ List.nil_infix
      · exact ⟨strOf "GraphQL " ++ natToChars (up 0).status ++ ' ' :: (up 0).statusText
          ++ strOf ": ", [], by simp [Inv.gqlErrMsg, orS, hb]⟩
  · intro up fuel hno h429
    unfold Inv.handler Inv.fetchAllProducts
    rw [key _ up fuel hno h429]
    simp [orS, msgne _ (up 0)]

/-- C9 witness: the propagation theorem applied to an upstream that answers
500 with body `"boom"`: the handler responds 500 and the error message is
literally `GraphQL 500 Internal Server Error: boom`. -/
theorem upstream_error_no_retry_witness :
    (¬ (200 ≤ (errUpstream 0).status ∧ (errUpstream 0).status ≤ 299)) ∧
    (errUpstream 0).status ≠ 429 ∧
    Inv.handler true errUpstream 1 = some (500, .failure (Inv.gqlErrMsg (errUpstream 0))) ∧
    Inv.gqlErrMsg (errUpstream 0) = strOf "GraphQL 500 Internal Server Error: boom" :=
  ⟨by decide, by decide,
   upstream_error_no_retry.2 errUpstream 0 (by decide) (by decide), by decide⟩



/-- The `pow10` table is ten to the power, in the rationals. -/
theorem pow10_eq (k : Nat) : ((pow10 k : ℤ) : ℚ) = (10 : ℚ) ^ k := by
  induction k with
  | zero => rfl
  | succ n ih =>
    unfold pow10
    push_cast
    push_cast at ih
    rw [ih, pow_succ]
    ring

/-- The comparison `decLe` decides exactly the order of the decimals'
rational values. -/
theorem decLe_iff (a b : Dec) : decLe a b = true ↔ decVal a ≤ decVal b := by
  have hne : (10 : ℚ) ≠ 0 := by norm_num
  unfold decLe decVal
  by_cases he : a.e ≤ b.e
  · rw [if_pos he, decide_eq_true_eq]
    have hz : (10 : ℚ) ^ (b.e - a.e).toNat = (10 : ℚ) ^ (b.e - a.e) := by
      rw [← zpow_natCast, Int.toNat_of_nonneg (by omega)]
    have key : (b.m : ℚ) * (10 : ℚ) ^ b.e =
        ((b.m : ℚ) * (10 : ℚ) ^ (b.e - a.e)) * (10 : ℚ) ^ a.e := by
      rw [mul_assoc, ← zpow_add₀ hne]
      have : b.e - a.e + a.e = b.e := by omega
      rw [this]
    rw [key, mul_le_mul_right (zpow_pos (by norm_num) a.e), ← hz, ← pow10_eq]
    constructor
    · intro hle
      exact_mod_cast hle
    · intro hle
      exact_mod_cast hle
  · rw [if_neg he, decide_eq_true_eq]
    have hz : (10 : ℚ) ^ (a.e - b.e).toNat = (10 : ℚ) ^ (a.e - b.e) := by
      rw [← zpow_natCast, Int.toNat_of_nonneg (by omega)]
    have key : (a.m : ℚ) * (10 : ℚ) ^ a.e =
        ((a.m : ℚ) * (10 : ℚ) ^ (a.e - b.e)) * (10 : ℚ) ^ b.e := by
      rw [mul_assoc, ← zpow_add₀ hne]
      have : a.e - b.e + b.e = a.e := by omega
      rw [this]
    rw [key, mul_le_mul_right (zpow_pos (by norm_num) b.e), ← hz, ← pow10_eq]
    constructor
    · intro hle
      exact_mod_cast hle
    · intro hle
      exact_mod_cast hle

/-- The model of `Math.min` returns the smaller rational value. -/
theorem decMin_val (a b : Dec) : decVal (decMin a b) = min (decVal a) (decVal b) := by
  unfold decMin
  by_cases h : decLe a b = true
  · rw [if_pos h]
    exact (min_eq_left ((decLe_iff a b).mp h)).symm
  · rw [if_neg h]
    have hba : decVal b ≤ decVal a :=
      le_of_not_le (fun hc => h ((decLe_iff a b).mpr hc))
    exact (min_eq_right hba).symm

/-- Seconds-to-milliseconds conversion scales the value by 1000. -/
theorem decMul1000_val (d : Dec) : decVal (decMul1000 d) = 1000 * decVal d := by
  unfold decMul1000 decVal
  dsimp only
  rw [zpow_add₀ (by norm_num : (10 : ℚ) ≠ 0)]
  ring_nf

/-- C8 (amended): in the inventory.js fetcher (and the REST pagers of
part_001/part_002) a 429 response makes the pager sleep the `Retry-After`
hint in seconds — 2 when the header is absent, capped at 5 — and re-issue
the identical request (same query and variables; the upstream oracle is
advanced by one attempt): after one 429 followed by a 200 the page's
payload is returned exactly once, with exactly one sleep and exactly two
upstream calls.  The cap is stated over the exact rational value of the
sleep: a parseable header `h` sleeps `min(1000 * Number(h), 5000)`
milliseconds, which never exceeds 5000 ms.  part_000's `gqlFetch` sleeps
the uncapped hint (see the counterexample). -/
theorem retry_429_same_request (α : Type) (up : Nat → Inv.GResp α) (fuel : Nat)
    (h0 : (up 0).status = 429) (h1 : (up 1).status = 200)
    (he : (up 1).errors = none) :
    Inv.gqlFetch up (fuel + 2) 0 []
      = some (.ok (up 1).data, [retrySleepMsCapped (up 0).retryAfter], 2) ∧
    retrySleepMsCapped none = ⟨2, 3⟩ ∧
    decVal (retrySleepMsCapped none) = 2000 ∧
    (∀ (h : JStr) (q : Dec), h ≠ [] → jsNumberOfString h = some q →
      decVal (retrySleepMsCapped (some h)) = min (1000 * decVal q) 5000 ∧
      decVal (retrySleepMsCapped (some h)) ≤ 5000) := by
  refine ⟨?_, by decide, ?_, ?_⟩
  · show Inv.gqlFetch up (fuel + 1 + 1) 0 [] = _
    unfold Inv.gqlFetch
    rw [if_pos h0]
    unfold Inv.gqlFetch
    rw [if_neg (by rw [h1]; decide)]
    rw [if_neg (by rw [h1]; decide)]
    rw [he]
    simp
  · rw [show retrySleepMsCapped none = ⟨2, 3⟩ from by decide]
    unfold decVal
    norm_num
  · intro h q hne hq
    have hr : retrySleepMsCapped (some h) = decMul1000 (decMin q ⟨5, 0⟩) := by
      unfold retrySleepMsCapped
      rw [show orS (((some h).getD [])) (strOf "2") = h from by simp [orS, hne], hq]
    have hmin : decVal (retrySleepMsCapped (some h)) = min (1000 * decVal q) 5000 := by
      rw [hr, decMul1000_val, decMin_val,
        show decVal ⟨5, 0⟩ = 5 from by unfold decVal; norm_num]
      rcases le_total (decVal q) 5 with h5 | h5
      · rw [min_eq_left h5, min_eq_left (by linarith)]
      · rw [min_eq_right h5, min_eq_right (by linarith)]
        norm_num
    exact ⟨hmin, by rw [hmin]; exact min_le_right _ _⟩


/-- C8 counterexample: part_000's `gqlFetch` (also cited by the claim) has
no `Math.min(..., 5)` cap: with `Retry-After: 60` it sleeps 60000 ms, not
the 5000 ms the claimed cap would give. -/
theorem p000_retry_sleep_uncapped :
    P000.gqlFetch throttleUpstream 2 0 [] = some (.ok 7, [⟨60, 3⟩], 2) ∧
    retrySleepMsUncapped (some (strOf "60")) = ⟨60, 3⟩ ∧
    (⟨60, 3⟩ : Dec) ≠ decMul1000 (decMin ⟨60, 0⟩ ⟨5, 0⟩) :=
  ⟨rfl, by decide, by decide⟩


/-- C8 witness: the retry theorem applied to an upstream that answers 429
with `Retry-After: 1` then 200: the page is returned exactly once after a
single sleep of 1000 ms. -/
theorem retry_429_same_request_witness :
    (retryOnceUpstream 0).status = 429 ∧
    Inv.gqlFetch retryOnceUpstream 2 0 []
      = some (.ok (retryOnceUpstream 1).data,
          [retrySleepMsCapped (retryOnceUpstream 0).retryAfter], 2) ∧
    retrySleepMsCapped (retryOnceUpstream 0).retryAfter = ⟨1, 3⟩ :=
  ⟨by decide,
   (retry_429_same_request Nat retryOnceUpstream 0 (by decide) (by decide) (by decide)).1,
   by decide⟩


/-- Helper: a REST pager run over a chain of 200-pages accumulates all
pages' items in order. -/
theorem fetchPagedJson_chain {α : Type} (up : JStr → P001.PResp α)
    (pages : List (List α)) :
    ∀ (url : JStr) (fuel : Nat) (acc : List α) (sleeps : List Dec),
      P001.IsChain up url pages → pages.length ≤ fuel →
      P001.fetchPagedJson up fuel url acc sleeps
        = some (.ok (acc ++ pages.flatten), sleeps) := by
  induction pages with
  | nil => intro url fuel acc sleeps h _; simp [P001.IsChain] at h
  | cons items rest ih =>
    intro url fuel acc sleeps h hf
    obtain ⟨h200, hbody, hnext⟩ := h
    match fuel, hf with
    | f + 1, hf' =>
      unfold P001.fetchPagedJson
      rw [if_neg (by rw [h200]; decide), if_neg (by rw [h200]; decide)]
      cases hb : (up url).body with
      | withProducts xs =>
        rw [hb] at hbody
        subst hbody
        cases rest with
        | nil =>
          rw [show P001.nextLink (P001.parseLinkHeader (up url).link) = none from hnext]
          simp [P001.PBody.items]
        | cons r rs =>
          obtain ⟨u', hu', hchain⟩ := hnext
          rw [hu']
          simp only [P001.PBody.items]
          rw [ih u' f (acc ++ xs) sleeps hchain (by simpa using hf')]
          simp
      | withMetafields xs => rw [hb] at hbody; exact absurd hbody (by simp)
      | plain x => rw [hb] at hbody; exact absurd hbody (by simp)

/-- Helper: a GraphQL pager run over a chain of successful pages
accumulates all edges' nodes in order. -/
theorem fetchAllProducts_chain (up : Nat → Inv.GResp (Option Inv.GPage))
    (pages : List (List Inv.GEdge)) :
    ∀ (k fuel : Nat) (acc : List Inv.Product),
      Inv.IsGqlChain up k pages → pages.length ≤ fuel →
      Inv.fetchAllProducts up fuel k acc
        = some (.ok (acc ++ (pages.map (fun es => es.map (·.node))).flatten),
            k + pages.length) := by
  induction pages with
  | nil => intro k fuel acc h _; simp [Inv.IsGqlChain] at h
  | cons edges rest ih =>
    intro k fuel acc h hf
    obtain ⟨h200, herr, hdata, htail⟩ := h
    match fuel, hf with
    | f + 1, hf' =>
      unfold Inv.fetchAllProducts
      have hone : Inv.gqlFetch up (f + 1) k []
          = some (.ok (up k).data, [], k + 1) := by
        unfold Inv.gqlFetch
        rw [if_neg (by rw [h200]; decide), if_neg (by rw [h200]; decide), herr]
      rw [hone, hdata]
      dsimp only
      cases rest with
      | nil =>
        simp
      | cons r rs =>
        obtain ⟨hedges, hchain⟩ := htail
        rw [if_neg (by simp [List.isEmpty_iff, hedges])]
        rw [ih (k + 1) f (acc ++ edges.map (·.node)) hchain (by simpa using hf')]
        simp
        omega

/-- C7: both pagers return the concatenation of all pages' items in page
order, following the pagination cursor until exhausted — `fetchPagedJson`
follows the `Link: rel="next"` header, `fetchAllProducts` the
`hasNextPage` flag with the end cursor. -/
theorem pager_concatenates_pages :
    (∀ (α : Type) (up : JStr → P001.PResp α) (url : JStr)
       (pages : List (List α)) (fuel : Nat),
      P001.IsChain up url pages → pages.length ≤ fuel →
      P001.fetchPagedJson up fuel url [] [] = some (.ok pages.flatten, [])) ∧
    (∀ (up : Nat → Inv.GResp (Option Inv.GPage)) (pages : List (List Inv.GEdge))
       (fuel : Nat),
      Inv.IsGqlChain up 0 pages → pages.length ≤ fuel →
      Inv.fetchAllProducts up fuel 0 []
        = some (.ok ((pages.map (fun es => es.map (·.node))).flatten), pages.length)) := by
  constructor
  · intro α up url pages fuel h hf
    simpa using fetchPagedJson_chain up pages url fuel [] [] h hf
  · intro up pages fuel h hf
    simpa using fetchAllProducts_chain up pages 0 fuel [] h hf

set_option maxRecDepth 8000 in
/-- C7 witness: the spec's pagination scenario — an upstream serving three
pages of 250, 250 and 10 globally-numbered items with `Link: rel="next"`
headers on pages 1 and 2 only — yields exactly the 510 items `0..509` in
page order. -/
theorem pager_concatenates_pages_witness :
    P001.IsChain chainUpstream (strOf "https://s/page1") scenarioPages ∧
    P001.fetchPagedJson chainUpstream 3 (strOf "https://s/page1") [] []
      = some (.ok scenarioPages.flatten, []) ∧
    scenarioPages.flatten = List.range 510 ∧
    scenarioPages.flatten.length = 510 := by
  have hchain : P001.IsChain chainUpstream (strOf "https://s/page1") scenarioPages := by
    refine ⟨by decide, by exact rfl, ?_⟩
    refine ⟨strOf "https://s/page2", by decide, by decide, by exact rfl, ?_⟩
    refine ⟨strOf "https://s/page3", by decide, by decide, by exact rfl, by decide⟩
  exact ⟨hchain,
    pager_concatenates_pages.1 Nat chainUpstream (strOf "https://s/page1")
      scenarioPages 3 hchain (by decide),
    by decide, by decide⟩


/-- A truthy JS value is neither `null` nor `undefined`. -/
theorem jsTruthy_not_nullish {v : JSVal} (h : jsTruthy v = true) :
    v.isNullish = false := by
  cases v <;> simp_all [jsTruthy, JSVal.isNullish]

/-- C3: the metafield normalizer is total.  In the exception-instrumented
semantics — where `JSON.parse` and property access on `null`/`undefined`
throw — the normalizer never lets an exception escape (the only throwing
operations sit inside the `try` or behind truthiness guards), it agrees
with the pure model on every input, and its result is always `null` or a
string. -/
theorem normalizer_never_throws :
    ∀ (raw : JSVal) (du : JStr),
      normalizeMeasureFromJSONishE raw du = .ok (normalizeMeasureFromJSONish raw du) ∧
      (normalizeMeasureFromJSONish raw du = none ∨
        ∃ s, normalizeMeasureFromJSONish raw du = some s) := by
  have hstr : ∀ (raw : JSVal) (du : JStr),
      stringBranchE raw du = .ok (stringBranch raw du) := by
    intro raw du
    unfold stringBranchE stringBranch
    by_cases h : jsTrim (jsDisplay raw) = []
    · simp [h]
    · simp only [h, if_neg]
      cases hm : matchMeasure (jsTrim (jsDisplay raw)) with
      | none => simp [hm]
      | some p => cases p with
        | mk num unitCap => simp [hm]
  have core : ∀ (obj : JSVal) (du : JStr),
      catchToNone
        (if jsTruthy obj then
          match getFieldE obj (strOf "value") with
          | .error e => .error e
          | .ok v =>
            if !v.isNullish then
              match jsToNumber v with
              | some q =>
                match getFieldE obj (strOf "unit") with
                | .error e => .error e
                | .ok u => .ok (some (decToString q ++ ' ' :: orS (unitAbbrev u) du))
              | none => .ok none
            else .ok none
        else .ok none) =
      (if jsTruthy obj && !(getFieldD obj (strOf "value")).isNullish then
        match jsToNumber (getFieldD obj (strOf "value")) with
        | some q => some (decToString q ++ ' ' :: orS (unitAbbrev (getFieldD obj (strOf "unit"))) du)
        | none => none
      else none) := by
    intro obj du
    by_cases ht : jsTruthy obj
    · have hnn := jsTruthy_not_nullish ht
      simp only [ht, if_true, Bool.true_and, getFieldE, hnn, Bool.false_eq_true, if_false]
      by_cases hv : (getFieldD obj (strOf "value")).isNullish
      · simp [catchToNone, hv]
      · simp only [hv, Bool.not_false, if_true, Bool.false_eq_true, if_false]
        cases hq : jsToNumber (getFieldD obj (strOf "value")) with
        | some q => simp [catchToNone, hq]
        | none => simp [catchToNone, hq]
    · simp [catchToNone, ht]
  have hjson : ∀ (raw : JSVal) (du : JStr),
      catchToNone (jsonBranchE raw du) = jsonBranch raw du := by
    intro raw du
    unfold jsonBranchE jsonBranch
    cases raw with
    | str s =>
      simp only [jsonParseE]
      cases hp : jsonParse s with
      | some v => simp only [hp]; exact core v du
      | none => simp [hp, catchToNone]
    | null => exact core .null du
    | undef => exact core .undef du
    | bool b => exact core (.bool b) du
    | num q => exact core (.num q) du
    | nan => exact core .nan du
    | arr xs => exact core (.arr xs) du
    | obj fs => exact core (.obj fs) du
  intro raw du
  constructor
  · unfold normalizeMeasureFromJSONishE normalizeMeasureFromJSONish
    by_cases hn : raw.isNullish
    · simp [hn]
    · simp only [hn, Bool.false_eq_true, if_false]
      rw [hjson raw du]
      cases jsonBranch raw du with
      | some out => rfl
      | none => exact hstr raw du
  · cases normalizeMeasureFromJSONish raw du with
    | none => exact Or.inl rfl
    | some s => exact Or.inr ⟨s, rfl⟩

end RC

namespace RC

/-- A digit is not whitespace, is a number character, and starts a number. -/
theorem digit_facts {c : Char} (h : isDigit c = true) :
    isReWs c = false ∧ isJsonWs c = false ∧ isNumChar c = true ∧
    isNumStart c = true ∧ isAlpha c = false := by
  simp only [isDigit, Bool.and_eq_true, decide_eq_true_eq] at h
  refine ⟨?_, ?_, ?_, ?_, ?_⟩
  · simp only [isReWs, isJsonWs, Bool.or_eq_false_iff, decide_eq_false_iff_not]
    omega
  · simp only [isJsonWs, Bool.or_eq_false_iff, decide_eq_false_iff_not]
    omega
  · simp only [isNumChar, isDigit, Bool.or_eq_true, Bool.and_eq_true, decide_eq_true_eq]
    omega
  · simp only [isNumStart, isDigit, Bool.or_eq_true, Bool.and_eq_true, decide_eq_true_eq]
    omega
  · simp only [isAlpha, Bool.or_eq_false_iff, Bool.and_eq_false_iff,
      decide_eq_false_iff_not]
    omega

/-- A letter is not whitespace and not a digit. -/
theorem alpha_facts {c : Char} (h : isAlpha c = true) :
    isReWs c = false ∧ isJsonWs c = false ∧ isDigit c = false := by
  simp only [isAlpha, Bool.or_eq_true, Bool.and_eq_true, decide_eq_true_eq] at h
  refine ⟨?_, ?_, ?_⟩
  · simp only [isReWs, isJsonWs, Bool.or_eq_false_iff, decide_eq_false_iff_not]
    omega
  · simp only [isJsonWs, Bool.or_eq_false_iff, decide_eq_false_iff_not]
    omega
  · simp only [isDigit, Bool.and_eq_false_iff, decide_eq_false_iff_not]
    omega

end RC

namespace RC

/-- A number-start character is not whitespace and differs from every
keyword/str/array/object opener of the JSON grammar. -/
theorem numStart_facts {c : Char} (h : isNumStart c = true) :
    isJsonWs c = false ∧ c ≠ 't' ∧ c ≠ 'f' ∧ c ≠ 'n' ∧ c ≠ '"' ∧
    c ≠ '[' ∧ c ≠ lbrace ∧ isReWs c = false := by
  simp only [isNumStart, isDigit, Bool.or_eq_true, Bool.and_eq_true,
    decide_eq_true_eq] at h
  have hn : c.toNat = 45 ∨ (48 ≤ c.toNat ∧ c.toNat ≤ 57) := by
    rcases h with h | h
    · right; exact h
    · left; rw [h]; rfl
  refine ⟨?_, ?_, ?_, ?_, ?_, ?_, ?_, ?_⟩
  · simp only [isJsonWs, Bool.or_eq_false_iff, decide_eq_false_iff_not]; omega
  · intro hc; rw [hc] at hn; simp at hn
  · intro hc; rw [hc] at hn; simp at hn
  · intro hc; rw [hc] at hn; simp at hn
  · intro hc; rw [hc] at hn; simp at hn
  · intro hc; rw [hc] at hn; simp at hn
  · intro hc; rw [hc] at hn; simp [lbrace] at hn
  · simp only [isReWs, isJsonWs, Bool.or_eq_false_iff, decide_eq_false_iff_not]; omega

/-- `takeWhile` over an append whose left part satisfies `p` and whose
right part starts with a failing character. -/
theorem takeWhile_append_exact {p : Char → Bool} {l₁ l₂ : JStr}
    (h1 : l₁.all p = true)
    (h2 : match l₂ with | [] => True | c :: _ => p c = false) :
    (l₁ ++ l₂).takeWhile p = l₁ := by
  induction l₁ with
  | nil =>
    cases l₂ with
    | nil => rfl
    | cons c t => simp [List.takeWhile_cons, h2]
  | cons a t ih =>
    simp only [List.all_cons, Bool.and_eq_true] at h1
    simp [List.takeWhile_cons, h1.1, ih h1.2]

/-- `dropWhile` over the same split. -/
theorem dropWhile_append_exact {p : Char → Bool} {l₁ l₂ : JStr}
    (h1 : l₁.all p = true)
    (h2 : match l₂ with | [] => True | c :: _ => p c = false) :
    (l₁ ++ l₂).dropWhile p = l₂ := by
  induction l₁ with
  | nil =>
    cases l₂ with
    | nil => rfl
    | cons c t => simp [List.dropWhile_cons, h2]
  | cons a t ih =>
    simp only [List.all_cons, Bool.and_eq_true] at h1
    simp [List.dropWhile_cons, h1.1, ih h1.2]

/-- `span` over the same split. -/
theorem span_append_exact {p : Char → Bool} {l₁ l₂ : JStr}
    (h1 : l₁.all p = true)
    (h2 : match l₂ with | [] => True | c :: _ => p c = false) :
    (l₁ ++ l₂).span p = (l₁, l₂) := by
  simp [List.span_eq_take_drop, takeWhile_append_exact h1 h2,
    dropWhile_append_exact h1 h2]

/-- The characters taken by `takeWhile` all satisfy the predicate. -/
theorem all_takeWhile (p : Char → Bool) (l : JStr) :
    (l.takeWhile p).all p = true := by
  induction l with
  | nil => rfl
  | cons a t ih =>
    by_cases h : p a
    · simp [List.takeWhile_cons, h, ih]
    · simp [List.takeWhile_cons, h]

/-- The remainder of `dropWhile` starts with a failing character. -/
theorem dropWhile_head (p : Char → Bool) (l : JStr) :
    match l.dropWhile p with | [] => True | c :: _ => p c = false := by
  induction l with
  | nil => trivial
  | cons a t ih =>
    by_cases h : p a
    · simpa [List.dropWhile_cons, h] using ih
    · simp [List.dropWhile_cons, h]

end RC

namespace RC

/-- Head of an append with a non-empty left part. -/
theorem headD_append {l₁ l₂ : JStr} (d : Char) (h : l₁ ≠ []) :
    (l₁ ++ l₂).headD d = l₁.headD d := by
  cases l₁ with
  | nil => exact absurd rfl h
  | cons a t => rfl

/-- `trim` is the identity on a string whose two edges are not whitespace
(stated via the head of the string and of its reversal). -/
theorem jsTrim_eq_self
    (s : JStr)
    (hh : match s with | [] => True | c :: _ => isReWs c = false)
    (hl : match s.reverse with | [] => True | c :: _ => isReWs c = false) :
    jsTrim s = s := by
  unfold jsTrim
  have h1 : s.dropWhile isReWs = s := by
    cases s with
    | nil => rfl
    | cons c t => simp [List.dropWhile_cons, hh]
  rw [h1]
  have h2 : s.reverse.dropWhile isReWs = s.reverse := by
    cases hr : s.reverse with
    | nil => rfl
    | cons c t =>
      rw [hr] at hl
      simp [List.dropWhile_cons, hl]
  rw [h2, List.reverse_reverse]

/-- Conversely, a fixed point of `trim` has whitespace-free edges. -/
theorem jsTrim_fix_edges
    (s : JStr) (hs : jsTrim s = s) :
    (match s with | [] => True | c :: _ => isReWs c = false) ∧
    (match s.reverse with | [] => True | c :: _ => isReWs c = false) := by
  constructor
  · cases s with
    | nil => trivial
    | cons c t =>
      by_cases hc : isReWs c
      · exfalso
        have hlen : (jsTrim (c :: t)).length < (c :: t).length := by
          unfold jsTrim
          have h1 : (c :: t).dropWhile isReWs = t.dropWhile isReWs := by
            simp [List.dropWhile_cons, hc]
          rw [h1]
          have l1 : (t.dropWhile isReWs).length ≤ t.length :=
            (List.dropWhile_sublist (l := t) isReWs).length_le
          have l2 : ((t.dropWhile isReWs).reverse.dropWhile isReWs).length
              ≤ (t.dropWhile isReWs).reverse.length :=
            (List.dropWhile_sublist isReWs).length_le
          simp only [List.length_reverse] at l2 ⊢
          simp only [List.length_cons]
          omega
        rw [hs] at hlen
        omega
      · simpa using hc
  · cases hr : s.reverse with
    | nil => trivial
    | cons c t =>
      by_cases hc : isReWs c
      · exfalso
        have hlen : (jsTrim s).length < s.length := by
          unfold jsTrim
          have l1 : (s.dropWhile isReWs).length ≤ s.length :=
            (List.dropWhile_sublist (l := s) isReWs).length_le
          have key : ((s.dropWhile isReWs).reverse.dropWhile isReWs).length
              < s.length ∨ s.dropWhile isReWs ≠ s := by
            by_cases hfix : s.dropWhile isReWs = s
            · left
              rw [hfix, hr]
              have : ((c :: t).dropWhile isReWs).length ≤ t.length := by
                simp [List.dropWhile_cons, hc]
                exact (List.dropWhile_sublist (l := t) isReWs).length_le
              have hslen : s.length = t.length + 1 := by
                have := congrArg List.length hr
                simpa using this
              omega
            · right; exact hfix
          rcases key with hk | hk
          · simpa using hk
          · exfalso
            apply hk
            have hedge := hs
            unfold jsTrim at hedge
            -- if dropWhile changed s, trim strictly shrinks, contradicting hs
            have l2 : ((s.dropWhile isReWs).reverse.dropWhile isReWs).length
                ≤ (s.dropWhile isReWs).length := by
              have := (List.dropWhile_sublist (l := (s.dropWhile isReWs).reverse) isReWs).length_le
              simpa using this
            have : (jsTrim s).length ≤ (s.dropWhile isReWs).length := by
              unfold jsTrim
              simpa using l2
            rw [hs] at this
            have hd := List.dropWhile_sublist (l := s) isReWs
            exact List.Sublist.eq_of_length_le hd this
        rw [hs] at hlen
        omega
      · simpa using hc

end RC

namespace RC

/-- `toNat` of `ofNat` for small code points. -/
theorem toNat_ofNat_small {n : Nat} (h : n < 2000) : (Char.ofNat n).toNat = n := by
  unfold Char.ofNat
  rw [dif_pos (by unfold Nat.isValidChar; omega)]
  rfl

/-- A digit character is a digit. -/
theorem digitChar_isDigit {n : Nat} (h : n < 10) : isDigit (digitChar n) = true := by
  simp only [isDigit, digitChar, Bool.and_eq_true, decide_eq_true_eq]
  rw [toNat_ofNat_small (by omega)]
  omega

/-- The digit expansion of a natural number consists of digits. -/
theorem natToCharsAux_all_digit : ∀ (fuel n : Nat),
    (natToCharsAux fuel n).all isDigit = true := by
  intro fuel
  induction fuel with
  | zero => intro n; rfl
  | succ f ih =>
    intro n
    unfold natToCharsAux
    by_cases h : n < 10
    · simp [h, digitChar_isDigit h]
    · simp only [h, if_false, List.all_append, Bool.and_eq_true]
      exact ⟨ih (n / 10), by simp [digitChar_isDigit (Nat.mod_lt n (by omega))]⟩

/-- The digit expansion is non-empty. -/
theorem natToCharsAux_ne_nil : ∀ (fuel n : Nat), 0 < fuel →
    natToCharsAux fuel n ≠ [] := by
  intro fuel n hf
  match fuel, hf with
  | f + 1, _ =>
    unfold natToCharsAux
    by_cases h : n < 10
    · simp [h]
    · simp only [h, if_false]
      intro hc
      exact absurd (List.append_eq_nil.mp hc).2 (by simp)

/-- `natToChars` facts: non-empty, all digits. -/
theorem natToChars_facts (n : Nat) :
    natToChars n ≠ [] ∧ (natToChars n).all isDigit = true :=
  ⟨natToCharsAux_ne_nil (n + 1) n (by omega), natToCharsAux_all_digit (n + 1) n⟩

end RC

namespace RC

/-- All-characters facts transfer to sublists. -/
theorem all_of_sublist {p : Char → Bool} {l₁ l₂ : JStr}
    (hs : List.Sublist l₁ l₂) (h : l₂.all p = true) : l₁.all p = true := by
  rw [List.all_eq_true] at h ⊢
  exact fun x hx => h x (hs.subset hx)

/-- The fractional digit block consists of digits. -/
theorem fracBlock_all_digit (k fr : Nat) :
    (fracBlock k fr).all isDigit = true := by
  unfold fracBlock stripZeros
  rw [List.all_reverse]
  refine all_of_sublist (List.dropWhile_sublist _) ?_
  rw [List.all_reverse, List.all_append]
  refine Bool.and_eq_true_iff.mpr ⟨?_, (natToChars_facts fr).2⟩
  rw [List.all_eq_true]
  intro x hx
  rw [List.eq_of_mem_replicate hx]
  decide

/-- Head, last and membership facts for a non-empty all-`p` list. -/
theorem edge_facts_of_all {p : Char → Bool} {l : JStr}
    (hne : l ≠ []) (hall : l.all p = true) :
    p (l.headD ' ') = true ∧ p (l.reverse.headD ' ') = true := by
  constructor
  · cases hl : l with
    | nil => exact absurd hl hne
    | cons a t =>
      rw [hl] at hall
      simp only [List.all_cons, Bool.and_eq_true] at hall
      exact hall.1
  · cases hl : l.reverse with
    | nil => exact absurd (by simpa using congrArg List.reverse hl) hne
    | cons a t =>
      have ha : a ∈ l := by
        have : a ∈ l.reverse := by rw [hl]; exact List.mem_cons_self a t
        simpa using this
      rw [List.all_eq_true] at hall
      simpa [hl] using hall a ha

/-- `decCore` facts: non-empty, all number characters, digit head, digit
last character. -/
theorem decCore_facts (n : Nat) (e : Int) :
    decCore n e ≠ [] ∧ (decCore n e).all isNumChar = true ∧
    isDigit ((decCore n e).headD ' ') = true ∧
    isDigit ((decCore n e).reverse.headD ' ') = true := by
  have hnat : ∀ m : Nat, natToChars m ≠ [] ∧ (natToChars m).all isNumChar = true ∧
      isDigit ((natToChars m).headD ' ') = true ∧
      isDigit ((natToChars m).reverse.headD ' ') = true := by
    intro m
    obtain ⟨hne, hall⟩ := natToChars_facts m
    obtain ⟨hh, hl⟩ := edge_facts_of_all hne hall
    refine ⟨hne, ?_, hh, hl⟩
    rw [List.all_eq_true] at hall ⊢
    exact fun x hx => (digit_facts (hall x hx)).2.2.1
  unfold decCore
  by_cases he : e ≥ 0
  · simp only [he, if_true]
    exact hnat _
  · simp only [he, if_false]
    by_cases hfr : n % pow10 (-e).toNat = 0
    · simp only [hfr, if_pos]
      exact hnat _
    · rw [if_neg hfr]
      by_cases hfb : fracBlock (-e).toNat (n % pow10 (-e).toNat) = []
      · rw [if_pos hfb]
        exact hnat _
      · rw [if_neg hfb]
        obtain ⟨ha, hb, hc, hd⟩ := hnat (n / pow10 (-e).toNat)
        have hfall := fracBlock_all_digit (-e).toNat (n % pow10 (-e).toNat)
        obtain ⟨hfh, hfl⟩ := edge_facts_of_all hfb hfall
        refine ⟨by simp, ?_, ?_, ?_⟩
        · rw [List.all_append]
          refine Bool.and_eq_true_iff.mpr ⟨hb, ?_⟩
          simp only [List.all_cons, Bool.and_eq_true]
          refine ⟨by decide, ?_⟩
          rw [List.all_eq_true] at hfall ⊢
          exact fun x hx => (digit_facts (hfall x hx)).2.2.1
        · rw [headD_append _ ha]
          exact hc
        · rw [List.reverse_append, List.reverse_cons, List.append_assoc]
          rw [headD_append _ (by
            intro hcon
            exact hfb (by simpa using congrArg List.reverse hcon))]
          simpa using hfl

/-- `decToString` facts: non-empty, all number characters, number-start
head, digit last character. -/
theorem decToString_facts (q : Dec) :
    decToString q ≠ [] ∧ (decToString q).all isNumChar = true ∧
    isNumStart ((decToString q).headD ' ') = true ∧
    isDigit ((decToString q).reverse.headD ' ') = true := by
  unfold decToString
  by_cases hz : q.m = 0
  · rw [if_pos hz]; decide
  · rw [if_neg hz]
    obtain ⟨ha, hb, hc, hd⟩ := decCore_facts q.m.natAbs q.e
    by_cases hneg : q.m < 0
    · rw [if_pos hneg]
      refine ⟨by simp, ?_, by simp [isNumStart], ?_⟩
      · simp only [List.all_cons, Bool.and_eq_true]
        exact ⟨by decide, hb⟩
      · rw [List.reverse_cons, headD_append _ (by simpa using ha)]
        exact hd
    · rw [if_neg hneg]
      exact ⟨ha, hb, (digit_facts hc).2.2.2.1, hd⟩

end RC

namespace RC

/-- `span` of a list all of whose characters satisfy the predicate. -/
theorem span_all {p : Char → Bool} {l : JStr} (h : l.all p = true) :
    l.span p = (l, []) := by
  have h1 := @takeWhile_append_exact p l [] h trivial
  have h2 := @dropWhile_append_exact p l [] h trivial
  rw [List.append_nil] at h1 h2
  simp [List.span_eq_take_drop, h1, h2]

/-- Regex whitespace subsumes JSON whitespace. -/
theorem isJsonWs_of_not_reWs {c : Char} (h : isReWs c = false) :
    isJsonWs c = false := by
  simp only [isReWs, Bool.or_eq_false_iff] at h
  exact h.1.1

/-- Introduction: a non-empty digit block is a number shape. -/
theorem numShape_digits {s : JStr} (hne : s ≠ []) (hall : s.all isDigit = true) :
    numShape s = true := by
  unfold numShape
  rw [span_all hall]
  simp [hne]

/-- Introduction: digits, a dot, digits is a number shape. -/
theorem numShape_frac {d₁ d₂ : JStr} (h1ne : d₁ ≠ []) (h1 : d₁.all isDigit = true)
    (h2ne : d₂ ≠ []) (h2 : d₂.all isDigit = true) :
    numShape (d₁ ++ '.' :: d₂) = true := by
  unfold numShape
  rw [span_append_exact h1 (show isDigit '.' = false by decide)]
  simp [h1ne, h2ne, h2]

/-- Elimination: a number shape is a digit block, possibly with a dot and a
second digit block. -/
theorem numShape_elim {s : JStr} (h : numShape s = true) :
    (s ≠ [] ∧ s.all isDigit = true) ∨
    ∃ d₁ d₂, s = d₁ ++ '.' :: d₂ ∧ d₁ ≠ [] ∧ d₁.all isDigit = true ∧
      d₂ ≠ [] ∧ d₂.all isDigit = true := by
  unfold numShape at h
  rcases hsp : s.span isDigit with ⟨ds, r⟩
  rw [hsp] at h
  have hds : ds = s.takeWhile isDigit := by
    have := congrArg Prod.fst hsp
    simpa [List.span_eq_take_drop] using this.symm
  have hr : r = s.dropWhile isDigit := by
    have := congrArg Prod.snd hsp
    simpa [List.span_eq_take_drop] using this.symm
  have hsplit : s = ds ++ r := by
    rw [hds, hr, List.takeWhile_append_dropWhile]
  have hdall : ds.all isDigit = true := by
    rw [hds]; exact all_takeWhile _ _
  simp only [Bool.and_eq_true, decide_eq_true_eq] at h
  obtain ⟨hne, hm⟩ := h
  cases r with
  | nil =>
    left
    rw [hsplit, List.append_nil]
    exact ⟨hne, hdall⟩
  | cons c t =>
    by_cases hc : c = '.'
    · subst hc
      simp only [Bool.and_eq_true, decide_eq_true_eq] at hm
      right
      exact ⟨ds, t, hsplit, hne, hdall, hm.1, hm.2⟩
    · exfalso
      revert hm
      cases t <;> simp [hc]

/-- A number shape is a non-empty number token starting like a number. -/
theorem numShape_token_facts {s : JStr} (h : numShape s = true) :
    s ≠ [] ∧ s.all isNumChar = true ∧ isNumStart (s.headD ' ') = true := by
  have hd2n : ∀ l : JStr, l.all isDigit = true → l.all isNumChar = true := by
    intro l hl
    rw [List.all_eq_true] at hl ⊢
    exact fun x hx => (digit_facts (hl x hx)).2.2.1
  rcases numShape_elim h with ⟨hne, hall⟩ | ⟨d₁, d₂, hs, h1ne, h1, h2ne, h2⟩
  · refine ⟨hne, hd2n _ hall, ?_⟩
    exact (digit_facts (edge_facts_of_all hne hall).1).2.2.2.1
  · subst hs
    refine ⟨by simp, ?_, ?_⟩
    · rw [List.all_append]
      refine Bool.and_eq_true_iff.mpr ⟨hd2n _ h1, ?_⟩
      simp only [List.all_cons, Bool.and_eq_true]
      exact ⟨by decide, hd2n _ h2⟩
    · rw [headD_append _ h1ne]
      exact (digit_facts (edge_facts_of_all h1ne h1).1).2.2.2.1

/-- The unsigned expansion `decCore` is a number shape. -/
theorem decCore_shape (n : Nat) (e : Int) : numShape (decCore n e) = true := by
  unfold decCore
  by_cases he : e ≥ 0
  · simp only [he, if_true]
    exact numShape_digits (natToChars_facts _).1 (natToChars_facts _).2
  · simp only [he, if_false]
    by_cases hfr : n % pow10 (-e).toNat = 0
    · simp only [hfr, if_pos]
      exact numShape_digits (natToChars_facts _).1 (natToChars_facts _).2
    · rw [if_neg hfr]
      by_cases hfb : fracBlock (-e).toNat (n % pow10 (-e).toNat) = []
      · rw [if_pos hfb]
        exact numShape_digits (natToChars_facts _).1 (natToChars_facts _).2
      · rw [if_neg hfb]
        exact numShape_frac (natToChars_facts _).1 (natToChars_facts _).2
          hfb (fracBlock_all_digit _ _)

/-- The printed form of a non-negative number is a number shape; a negative
number prints with a leading minus sign. -/
theorem decToString_shape (q : Dec) :
    (0 ≤ q.m → numShape (decToString q) = true) ∧
    (q.m < 0 → (decToString q).headD ' ' = '-') := by
  unfold decToString
  by_cases hz : q.m = 0
  · rw [if_pos hz]
    exact ⟨fun _ => by decide, fun h => absurd h (by omega)⟩
  · rw [if_neg hz]
    by_cases hneg : q.m < 0
    · rw [if_pos hneg]
      exact ⟨fun h => absurd h (by omega), fun _ => rfl⟩
    · rw [if_neg hneg]
      exact ⟨fun _ => decCore_shape _ _, fun h => absurd h hneg⟩

end RC

namespace RC

/-- The measurement regex fails on input not starting with a digit. -/
theorem matchMeasure_none_head {s : JStr} (h : isDigit (s.headD ' ') = false) :
    matchMeasure s = none := by
  unfold matchMeasure
  cases s with
  | nil => rfl
  | cons c t =>
    simp only [List.headD_cons] at h
    simp [List.span_eq_take_drop, List.takeWhile_cons, h]

/-- The fraction step is the identity when the rest does not start with a
dot. -/
theorem mmNum_not_dot (ds : JStr) {r1 : JStr} (h : r1.headD ' ' ≠ '.') :
    mmNum ds r1 = (ds, r1) := by
  unfold mmNum
  rw [if_neg h]

/-- The fraction step on a dot-led rest. -/
theorem mmNum_dot (ds rest : JStr) :
    mmNum ds ('.' :: rest) =
      (let (fs, r3) := rest.span isDigit
       if fs = [] then (ds, '.' :: rest) else (ds ++ '.' :: fs, r3)) := by
  unfold mmNum
  rw [if_pos (by rfl)]
  rfl

/-- The unit step on an exhausted rest. -/
theorem mmUnit_nil (numPart : JStr) : mmUnit numPart [] = some (numPart, none) := rfl

/-- The unit step on a space followed by a whitespace-free-edged word:
a full-letter word is captured, anything else fails the regex. -/
theorem mmUnit_space (numPart abbr : JStr) (habbr : abbr ≠ [])
    (hh : isReWs (abbr.headD ' ') = false) :
    mmUnit numPart (' ' :: abbr) =
      (if alphaWord abbr then some (numPart, some abbr) else none) := by
  unfold mmUnit
  rw [if_neg (by simp), if_pos (show isReWs ((' ' :: abbr).headD ' ') = true by rfl)]
  have hdrop : (' ' :: abbr).dropWhile isReWs = abbr := by
    rw [List.dropWhile_cons_of_pos (by decide)]
    cases abbr with
    | nil => rfl
    | cons a t =>
      simp only [List.headD_cons] at hh
      rw [List.dropWhile_cons_of_neg (by simp [hh])]
  rw [hdrop]
  dsimp only
  by_cases hall : abbr.all isAlpha = true
  · rw [span_all hall]
    dsimp only
    rw [if_pos (by simp [habbr])]
    have : alphaWord abbr = true := by
      unfold alphaWord
      simp [habbr, hall]
    rw [if_pos this]
  · rcases hsp : abbr.span isAlpha with ⟨al, r5⟩
    try rw [hsp]
    dsimp only
    have hr5 : r5 = abbr.dropWhile isAlpha := by
      have := congrArg Prod.snd hsp
      simpa [List.span_eq_take_drop] using this.symm
    have hr5ne : r5 ≠ [] := by
      rw [hr5]
      intro hc
      rw [List.dropWhile_eq_nil_iff] at hc
      exact hall (List.all_eq_true.mpr (fun x hx => hc x hx))
    rw [if_neg (by simp [hr5ne])]
    have halw : alphaWord abbr = false := by
      unfold alphaWord
      simp [hall]
    rw [halw]
    rfl

/-- The numeric capture of the fraction step is number-shaped. -/
theorem mmNum_fst_shape {ds : JStr} (r1 : JStr) (hne : ds ≠ [])
    (hall : ds.all isDigit = true) :
    numShape (mmNum ds r1).1 = true := by
  unfold mmNum
  by_cases hdot : r1.headD ' ' = '.'
  · rw [if_pos hdot]
    rcases hsp : r1.tail.span isDigit with ⟨fs, r3⟩
    try rw [hsp]
    dsimp only
    by_cases hfs : fs = []
    · rw [if_pos hfs]
      exact numShape_digits hne hall
    · rw [if_neg hfs]
      have hfall : fs.all isDigit = true := by
        have : fs = r1.tail.takeWhile isDigit := by
          have := congrArg Prod.fst hsp
          simpa [List.span_eq_take_drop] using this.symm
        rw [this]; exact all_takeWhile _ _
      exact numShape_frac hne hall hfs hfall
  · rw [if_neg hdot]
    exact numShape_digits hne hall

/-- The unit step only succeeds with the numeric capture it was given and
an all-letter unit capture (or none). -/
theorem mmUnit_some_facts {numPart r2 num : JStr} {cap : Option JStr}
    (h : mmUnit numPart r2 = some (num, cap)) :
    num = numPart ∧ ∀ cu, cap = some cu → cu ≠ [] ∧ cu.all isAlpha = true := by
  unfold mmUnit at h
  by_cases h0 : r2 = []
  · rw [if_pos h0] at h
    simp only [Option.some.injEq, Prod.mk.injEq] at h
    refine ⟨h.1.symm, fun cu hcu => ?_⟩
    rw [← h.2] at hcu
    exact absurd hcu (by simp)
  · rw [if_neg h0] at h
    by_cases hws : isReWs (r2.headD ' ') = true
    · rw [if_pos hws] at h
      dsimp only at h
      rcases hsp : (r2.dropWhile isReWs).span isAlpha with ⟨al, r5⟩
      rw [hsp] at h
      dsimp only at h
      by_cases hcond : (decide (al ≠ []) && decide (r5 = [])) = true
      · rw [if_pos hcond] at h
        simp only [Option.some.injEq, Prod.mk.injEq] at h
        simp only [Bool.and_eq_true, decide_eq_true_eq, ne_eq] at hcond
        refine ⟨h.1.symm, fun cu hcu => ?_⟩
        rw [← h.2] at hcu
        have hal : al = cu := Option.some.inj hcu
        subst hal
        refine ⟨hcond.1, ?_⟩
        have : al = (r2.dropWhile isReWs).takeWhile isAlpha := by
          have := congrArg Prod.fst hsp
          simpa [List.span_eq_take_drop] using this.symm
        rw [this]; exact all_takeWhile _ _
      · rw [if_neg hcond] at h
        exact absurd h (by simp)
    · rw [if_neg hws] at h
      exact absurd h (by simp)

/-- `matchMeasure` through its two steps, given the digit-span split. -/
theorem matchMeasure_eq {s ds r1 : JStr} (hsp : s.span isDigit = (ds, r1))
    (hne : ds ≠ []) :
    matchMeasure s = mmUnit (mmNum ds r1).1 (mmNum ds r1).2 := by
  unfold matchMeasure
  rw [hsp]
  dsimp only
  rw [if_neg hne]

/-- A successful regex match yields a number-shaped numeric capture and an
all-letter unit capture. -/
theorem matchMeasure_some_facts {s num : JStr} {cap : Option JStr}
    (h : matchMeasure s = some (num, cap)) :
    numShape num = true ∧ ∀ cu, cap = some cu → cu ≠ [] ∧ cu.all isAlpha = true := by
  rcases hsp : s.span isDigit with ⟨ds, r1⟩
  by_cases hds : ds = []
  · rw [matchMeasure_none_head] at h
    · exact absurd h (by simp)
    · subst hds
      cases s with
      | nil => rfl
      | cons c t =>
        have hts : (c :: t).takeWhile isDigit = [] := by
          have := congrArg Prod.fst hsp
          simpa [List.span_eq_take_drop] using this
        by_cases hc : isDigit c = true
        · rw [List.takeWhile_cons_of_pos hc] at hts
          exact absurd hts (by simp)
        · simpa using hc
  · rw [matchMeasure_eq hsp hds] at h
    have hdall : ds.all isDigit = true := by
      have : ds = s.takeWhile isDigit := by
        have := congrArg Prod.fst hsp
        simpa [List.span_eq_take_drop] using this.symm
      rw [this]; exact all_takeWhile _ _
    obtain ⟨h1, h2⟩ := mmUnit_some_facts h
    subst h1
    exact ⟨mmNum_fst_shape r1 hds hdall, h2⟩

/-- The regex on a bare number shape: the whole string is the numeric
capture and there is no unit capture. -/
theorem matchMeasure_num (num : JStr) (h : numShape num = true) :
    matchMeasure num = some (num, none) := by
  rcases numShape_elim h with ⟨hne, hall⟩ | ⟨d₁, d₂, hs, h1ne, h1, h2ne, h2⟩
  · rw [matchMeasure_eq (span_all hall) hne,
      mmNum_not_dot _ (show ([] : JStr).headD ' ' ≠ '.' by decide)]
    exact mmUnit_nil num
  · subst hs
    rw [matchMeasure_eq (span_append_exact h1 (show isDigit '.' = false by decide)) h1ne,
      mmNum_dot, span_all h2]
    dsimp only
    rw [if_neg h2ne]
    exact mmUnit_nil _

/-- The regex on a number shape, a space and a whitespace-free-edged word:
an all-letter word is captured as the unit, anything else fails. -/
theorem matchMeasure_num_space (num abbr : JStr) (hn : numShape num = true)
    (habbr : abbr ≠ []) (hh : isReWs (abbr.headD ' ') = false) :
    matchMeasure (num ++ ' ' :: abbr) =
      (if alphaWord abbr then some (num, some abbr) else none) := by
  rcases numShape_elim hn with ⟨hne, hall⟩ | ⟨d₁, d₂, hs, h1ne, h1, h2ne, h2⟩
  · rw [matchMeasure_eq
        (span_append_exact hall (show isDigit ' ' = false by decide)) hne,
      mmNum_not_dot _ (show ((' ' :: abbr) : JStr).headD ' ' ≠ '.' by simp)]
    exact mmUnit_space num abbr habbr hh
  · subst hs
    have hassoc : (d₁ ++ '.' :: d₂) ++ ' ' :: abbr = d₁ ++ '.' :: (d₂ ++ ' ' :: abbr) := by
      simp
    rw [hassoc,
      matchMeasure_eq
        (span_append_exact h1 (show isDigit '.' = false by decide)) h1ne,
      mmNum_dot, span_append_exact h2 (show isDigit ' ' = false by decide)]
    dsimp only
    rw [if_neg h2ne]
    exact mmUnit_space _ abbr habbr hh

end RC

namespace RC

/-- `trim` is the identity on a non-empty string whose first and last
characters are not whitespace. -/
theorem jsTrim_eq_self_edges {s : JStr} (hne : s ≠ [])
    (hh : isReWs (s.headD ' ') = false) (hl : isReWs (s.reverse.headD ' ') = false) :
    jsTrim s = s := by
  apply jsTrim_eq_self
  · cases s with
    | nil => trivial
    | cons c t => simpa using hh
  · cases hr : s.reverse with
    | nil => trivial
    | cons c t => rw [hr] at hl; simpa using hl
  
/-- A non-empty fixed point of `trim` has whitespace-free edges. -/
theorem jsTrim_fix_headD {s : JStr} (hs : jsTrim s = s) (hne : s ≠ []) :
    isReWs (s.headD ' ') = false ∧ isReWs (s.reverse.headD ' ') = false := by
  obtain ⟨h1, h2⟩ := jsTrim_fix_edges s hs
  constructor
  · cases s with
    | nil => exact absurd rfl hne
    | cons c t => simpa using h1
  · cases hr : s.reverse with
    | nil => exact absurd (by simpa using congrArg List.reverse hr) hne
    | cons c t => rw [hr] at h2; simpa using h2

/-- An all-number-character string has no whitespace, so `trim` fixes it. -/
theorem jsTrim_numChars {s : JStr} (hall : s.all isNumChar = true) :
    jsTrim s = s := by
  cases hs : s with
  | nil => rfl
  | cons c t =>
    rw [← hs]
    have hnw : ∀ x : Char, isNumChar x = true → isReWs x = false := by
      intro x hx
      simp only [isNumChar, isDigit, Bool.or_eq_true, Bool.and_eq_true,
        decide_eq_true_eq] at hx
      simp only [isReWs, isJsonWs, Bool.or_eq_false_iff, decide_eq_false_iff_not]
      rcases hx with ((((h | h) | h) | h) | h) | h
      all_goals first
        | (subst h; decide)
        | (refine ⟨⟨⟨⟨⟨?_, ?_⟩, ?_⟩, ?_⟩, ?_⟩, ?_⟩ <;> omega)
    have hne : s ≠ [] := by rw [hs]; simp
    obtain ⟨hh, hl⟩ := edge_facts_of_all hne hall
    exact jsTrim_eq_self_edges hne (hnw _ hh)
      (hnw _ (by
        have hrne : s.reverse ≠ [] := by
          intro hc
          exact hne (by simpa using congrArg List.reverse hc)
        have : (s.reverse.all isNumChar) = true := by
          rw [List.all_reverse]; exact hall
        exact (edge_facts_of_all hrne this).1))

/-- The JSON parser dispatches a number-start character to the number
token parser. -/
theorem parseAny_numStart (fuel : Nat) {c : Char} (rest : JStr)
    (h : isNumStart c = true) :
    parseAny (fuel + 1) .val (c :: rest) = parseNumTok (c :: rest) := by
  obtain ⟨_, h1, h2, h3, h4, h5, h6, _⟩ := numStart_facts h
  unfold parseAny
  rw [if_neg h1, if_neg h2, if_neg h3, if_neg h4, if_neg h5, if_neg h6, if_pos h]

/-- `skipWs` is the identity when the head is not JSON whitespace. -/
theorem skipWs_eq_self {s : JStr} (h : isJsonWs (s.headD ' ') = false) :
    skipWs s = s := by
  unfold skipWs
  cases s with
  | nil => rfl
  | cons c t =>
    simp only [List.headD_cons] at h
    rw [List.dropWhile_cons_of_neg (by simp [h])]

/-- `JSON.parse` throws on a number token followed by a space and a
non-whitespace remainder (the parser stops at the space and rejects the
trailing garbage). -/
theorem jsonParse_num_space (num tail : JStr) (hne : num ≠ [])
    (hall : num.all isNumChar = true) (hstart : isNumStart (num.headD ' ') = true)
    (hskip : skipWs tail ≠ []) :
    jsonParse (num ++ ' ' :: tail) = none := by
  cases num with
  | nil => exact absurd rfl hne
  | cons c t =>
    simp only [List.headD_cons] at hstart
    have hjw : isJsonWs c = false := (numStart_facts hstart).1
    unfold jsonParse
    rw [skipWs_eq_self (by simpa using hjw)]
    have hfuel : 2 * ((c :: t) ++ ' ' :: tail).length + 4 =
        (2 * ((c :: t) ++ ' ' :: tail).length + 3) + 1 := by omega
    rw [hfuel, List.cons_append, parseAny_numStart _ _ hstart, ← List.cons_append]
    unfold parseNumTok
    rw [span_append_exact hall (show isNumChar ' ' = false by decide)]
    dsimp only
    rcases hstn : strToNum (c :: t) with _ | q
    · rfl
    · dsimp only
      have hsw : skipWs (' ' :: tail) = skipWs tail := by
        unfold skipWs
        rw [List.dropWhile_cons_of_pos (by decide)]
      rw [hsw, if_neg hskip]

/-- `JSON.parse` of a bare number token either throws or returns a finite
number (never an object). -/
theorem jsonParse_numToken (num : JStr) (hne : num ≠ [])
    (hall : num.all isNumChar = true) (hstart : isNumStart (num.headD ' ') = true) :
    jsonParse num = none ∨ ∃ q, jsonParse num = some (.num q) := by
  cases num with
  | nil => exact absurd rfl hne
  | cons c t =>
    simp only [List.headD_cons] at hstart
    have hjw : isJsonWs c = false := (numStart_facts hstart).1
    unfold jsonParse
    rw [skipWs_eq_self (by simpa using hjw)]
    have hfuel : 2 * (c :: t).length + 4 = (2 * (c :: t).length + 3) + 1 := by omega
    rw [hfuel, parseAny_numStart _ _ hstart]
    unfold parseNumTok
    rw [span_all hall]
    dsimp only
    rcases hstn : strToNum (c :: t) with _ | q
    · exact Or.inl rfl
    · exact Or.inr ⟨q, rfl⟩

end RC

namespace RC

/-- ASCII lower-casing is idempotent on one character. -/
theorem toLowerCh_idem (c : Char) : toLowerCh (toLowerCh c) = toLowerCh c := by
  unfold toLowerCh
  by_cases hb : (65 ≤ c.toNat && c.toNat ≤ 90) = true
  · rw [if_pos hb]
    simp only [Bool.and_eq_true, decide_eq_true_eq] at hb
    rw [if_neg (by
      simp only [Bool.and_eq_true, decide_eq_true_eq, not_and]
      rw [toNat_ofNat_small (by omega)]
      omega)]
  · rw [if_neg hb, if_neg hb]

/-- ASCII lower-casing of a string is idempotent. -/
theorem lowerStr_idem (s : JStr) : lowerStr (lowerStr s) = lowerStr s := by
  unfold lowerStr
  rw [List.map_map]
  exact List.map_congr_left (fun c _ => toLowerCh_idem c)

/-- Lower-casing preserves letters. -/
theorem toLowerCh_alpha {c : Char} (h : isAlpha c = true) :
    isAlpha (toLowerCh c) = true := by
  unfold toLowerCh
  simp only [isAlpha, Bool.or_eq_true, Bool.and_eq_true, decide_eq_true_eq] at h ⊢
  by_cases hb : 65 ≤ c.toNat ∧ c.toNat ≤ 90
  · rw [if_pos hb]
    rw [toNat_ofNat_small (by omega)]
    omega
  · rw [if_neg hb]
    exact h

/-- Lower-casing preserves the all-letter property and non-emptiness. -/
theorem lowerStr_alpha {s : JStr} (hne : s ≠ []) (hall : s.all isAlpha = true) :
    lowerStr s ≠ [] ∧ (lowerStr s).all isAlpha = true := by
  constructor
  · unfold lowerStr
    simpa using hne
  · unfold lowerStr
    rw [List.all_eq_true] at hall ⊢
    intro x hx
    rw [List.mem_map] at hx
    obtain ⟨c, hc, hcx⟩ := hx
    rw [← hcx]
    exact toLowerCh_alpha (hall c hc)

/-- `a || b` with a truthy left operand. -/
theorem orS_pos {a : JStr} (b : JStr) (h : a ≠ []) : orS a b = a := by
  unfold orS
  rw [if_neg h]

/-- `a || b` with a truthy right operand is truthy. -/
theorem orS_ne {a b : JStr} (hb : b ≠ []) : orS a b ≠ [] := by
  unfold orS
  by_cases ha : a = []
  · rw [if_pos ha]; exact hb
  · rw [if_neg ha]; exact ha

/-- The abbreviation chain fixes its own image on lower-cased input. -/
theorem unitChain_lower_fix {t : JStr} (hlow : lowerStr t = t) :
    unitChain (lowerStr (unitChain t)) = unitChain t := by
  by_cases c1 : (t = strOf "inches" || t = strOf "inch" || t = strOf "in") = true
  · have hc : unitChain t = strOf "in" := by unfold unitChain; rw [if_pos c1]
    rw [hc]; decide
  · by_cases c2 : (t = strOf "feet" || t = strOf "foot" || t = strOf "ft") = true
    · have hc : unitChain t = strOf "ft" := by
        unfold unitChain; rw [if_neg (by simp [c1]), if_pos c2]
      rw [hc]; decide
    · by_cases c3 : (t = strOf "centimeters" || t = strOf "cm") = true
      · have hc : unitChain t = strOf "cm" := by
          unfold unitChain; rw [if_neg (by simp [c1]), if_neg (by simp [c2]), if_pos c3]
        rw [hc]; decide
      · by_cases c4 : (t = strOf "meters" || t = strOf "m") = true
        · have hc : unitChain t = strOf "m" := by
            unfold unitChain
            rw [if_neg (by simp [c1]), if_neg (by simp [c2]), if_neg (by simp [c3]),
              if_pos c4]
          rw [hc]; decide
        · have hc : unitChain t = t := by
            unfold unitChain
            rw [if_neg (by simp [c1]), if_neg (by simp [c2]), if_neg (by simp [c3]),
              if_neg (by simp [c4])]
          rw [hc, hlow]
          exact hc

/-- The abbreviation chain preserves non-empty all-letter words. -/
theorem unitChain_alpha {t : JStr} (hne : t ≠ []) (hall : t.all isAlpha = true) :
    unitChain t ≠ [] ∧ (unitChain t).all isAlpha = true := by
  unfold unitChain
  by_cases c1 : (t = strOf "inches" || t = strOf "inch" || t = strOf "in") = true
  · rw [if_pos c1]; exact ⟨by decide, by decide⟩
  · rw [if_neg (by simp [c1])]
    by_cases c2 : (t = strOf "feet" || t = strOf "foot" || t = strOf "ft") = true
    · rw [if_pos c2]; exact ⟨by decide, by decide⟩
    · rw [if_neg (by simp [c2])]
      by_cases c3 : (t = strOf "centimeters" || t = strOf "cm") = true
      · rw [if_pos c3]; exact ⟨by decide, by decide⟩
      · rw [if_neg (by simp [c3])]
        by_cases c4 : (t = strOf "meters" || t = strOf "m") = true
        · rw [if_pos c4]; exact ⟨by decide, by decide⟩
        · rw [if_neg (by simp [c4])]
          exact ⟨hne, hall⟩

/-- A truthy input reaches the abbreviation chain. -/
theorem unitAbbrev_truthy {u : JSVal} (h : jsTruthy u = true) :
    unitAbbrev u = unitChain (lowerStr (jsDisplay u)) := by
  unfold unitAbbrev
  rw [if_neg (by simp [h])]

/-- A falsy unit value gives the empty abbreviation. -/
theorem unitAbbrev_falsy {u : JSVal} (h : jsTruthy u = false) :
    unitAbbrev u = [] := by
  unfold unitAbbrev
  rw [if_pos (by simp [h])]

/-- The emitted unit — the abbreviation of the unit value, defaulted to
`"in"` — is a fixed point of re-abbreviation: running `unitAbbrev` on the
string it produced gives it back. -/
theorem unitAbbrev_orS_fix (u : JSVal) :
    unitAbbrev (.str (orS (unitAbbrev u) (strOf "in"))) =
      orS (unitAbbrev u) (strOf "in") := by
  by_cases hu : unitAbbrev u = []
  · rw [hu]
    decide
  · rw [orS_pos _ hu]
    by_cases jt : jsTruthy u = true
    · have ha := unitAbbrev_truthy jt
      have houter : unitAbbrev (.str (unitAbbrev u)) =
          unitChain (lowerStr (unitAbbrev u)) := by
        rw [unitAbbrev_truthy (by simp [jsTruthy, hu])]
        have : jsDisplay (.str (unitAbbrev u)) = unitAbbrev u := rfl
        rw [this]
      rw [houter, ha]
      exact unitChain_lower_fix (lowerStr_idem (jsDisplay u))
    · exact absurd (unitAbbrev_falsy (by simpa using jt)) hu

end RC

namespace RC

/-- A string input is not nullish, so the normalizer tries the JSON branch
and falls back to the plain-string branch. -/
theorem normalize_str_eq (w d : JStr) :
    normalizeMeasureFromJSONish (.str w) d =
      (match jsonBranch (.str w) d with
       | some out => some out
       | none => stringBranch (.str w) d) := rfl

/-- The plain-string branch on a string input, written out. -/
theorem stringBranch_str (w d : JStr) :
    stringBranch (.str w) d =
      (if jsTrim w = [] then none
       else
         match matchMeasure (jsTrim w) with
         | some (num, unitCap) =>
           some (num ++ ' ' ::
             orS (unitAbbrev (match unitCap with
               | some cu => JSVal.str cu
               | none => JSVal.undef)) d)
         | none => some (jsTrim w)) := rfl

/-- The JSON branch on a string falls through when `JSON.parse` throws or
returns a number (a number has no `.value` property). -/
theorem jsonBranch_str_none {s0 : JStr}
    (h : jsonParse s0 = none ∨ ∃ q, jsonParse s0 = some (.num q)) (d : JStr) :
    jsonBranch (.str s0) d = none := by
  unfold jsonBranch
  dsimp only
  rcases h with h | ⟨q, h⟩
  · rw [h]
  · rw [h]
    dsimp only
    rw [if_neg (by simp [getFieldD, getField, JSVal.isNullish])]

/-- Elimination for a successful JSON branch on a string: the parse
succeeded on a truthy value with a usable finite `.value`, and the output
is the formatted measurement. -/
theorem jsonBranch_str_some {s0 d out : JStr}
    (h : jsonBranch (.str s0) d = some out) :
    ∃ v q, jsonParse s0 = some v ∧
      (jsTruthy v && !(getFieldD v (strOf "value")).isNullish) = true ∧
      jsToNumber (getFieldD v (strOf "value")) = some q ∧
      out = decToString q ++ ' ' ::
        orS (unitAbbrev (getFieldD v (strOf "unit"))) d := by
  unfold jsonBranch at h
  dsimp only at h
  rcases hp : jsonParse s0 with _ | v
  · rw [hp] at h
    exact absurd h (by simp)
  · rw [hp] at h
    dsimp only at h
    by_cases hc : (jsTruthy v && !(getFieldD v "value".toList).isNullish) = true
    · rw [if_pos hc] at h
      rcases hn : jsToNumber (getFieldD v "value".toList) with _ | q
      · rw [hn] at h
        exact absurd h (by simp)
      · rw [hn] at h
        dsimp only at h
        exact ⟨v, q, rfl, hc, hn, (Option.some.inj h).symm⟩
    · rw [if_neg hc] at h
      exact absurd h (by simp)

/-- The formatted output `<num> <abbr(unit) || "in">` of the normalizer is
one of its fixed points: normalizing it again returns it unchanged.
`num` ranges over the printed numbers and numeric captures the source can
emit (a number shape, or minus-led); the emitted unit must be
whitespace-clean at its edges, which holds for every unit the plain-string
branch emits and is the `unitCleanFor` condition for JSON-supplied units. -/
theorem normalize_fix (num : JStr) (u : JSVal)
    (hne : num ≠ []) (hall : num.all isNumChar = true)
    (hstart : isNumStart (num.headD ' ') = true)
    (hshape : numShape num = true ∨ num.headD ' ' = '-')
    (hcl : jsTrim (orS (unitAbbrev u) (strOf "in")) = orS (unitAbbrev u) (strOf "in")) :
    normalizeMeasureFromJSONish
        (.str (num ++ ' ' :: orS (unitAbbrev u) (strOf "in"))) (strOf "in")
      = some (num ++ ' ' :: orS (unitAbbrev u) (strOf "in")) := by
  have hane : orS (unitAbbrev u) (strOf "in") ≠ [] := orS_ne (by decide)
  obtain ⟨hah, hal⟩ := jsTrim_fix_headD hcl hane
  have hrne : (orS (unitAbbrev u) (strOf "in")).reverse ≠ [] := by
    intro hc
    exact hane (by simpa using congrArg List.reverse hc)
  have hjp : jsonParse (num ++ ' ' :: orS (unitAbbrev u) (strOf "in")) = none := by
    apply jsonParse_num_space num _ hne hall hstart
    rw [skipWs_eq_self (isJsonWs_of_not_reWs hah)]
    exact hane
  rw [normalize_str_eq, jsonBranch_str_none (Or.inl hjp), stringBranch_str]
  have htrim : jsTrim (num ++ ' ' :: orS (unitAbbrev u) (strOf "in")) =
      num ++ ' ' :: orS (unitAbbrev u) (strOf "in") := by
    apply jsTrim_eq_self_edges (by simp)
    · rw [headD_append _ hne]
      exact (numStart_facts hstart).2.2.2.2.2.2.2
    · rw [List.reverse_append, List.reverse_cons, List.append_assoc,
        headD_append _ hrne]
      exact hal
  rw [htrim, if_neg (by simp)]
  rcases hshape with hs | hdash
  · rw [matchMeasure_num_space num _ hs hane hah]
    by_cases halw : alphaWord (orS (unitAbbrev u) (strOf "in")) = true
    · rw [if_pos halw]
      dsimp only
      rw [unitAbbrev_orS_fix u, orS_pos _ hane]
    · rw [if_neg (by simp [halw])]
  · rw [matchMeasure_none_head (by
      rw [headD_append _ hne, hdash]
      decide)]

/-- A minus-led number token is returned unchanged by the normalizer: the
JSON branch yields a number without a `.value`, and the regex fails on the
leading minus sign. -/
theorem normalize_dash_token (s : JStr) (hne : s ≠ [])
    (hall : s.all isNumChar = true) (hdash : s.headD ' ' = '-') :
    normalizeMeasureFromJSONish (.str s) (strOf "in") = some s := by
  have hstart : isNumStart (s.headD ' ') = true := by rw [hdash]; decide
  rw [normalize_str_eq,
    jsonBranch_str_none (jsonParse_numToken s hne hall hstart),
    stringBranch_str, jsTrim_numChars hall, if_neg hne,
    matchMeasure_none_head (by rw [hdash]; decide)]

end RC

namespace RC

/-- An all-letter string has no whitespace, so `trim` fixes it. -/
theorem jsTrim_alphaChars {s : JStr} (hall : s.all isAlpha = true) :
    jsTrim s = s := by
  cases hs : s with
  | nil => rfl
  | cons c t =>
    rw [← hs]
    have hne : s ≠ [] := by rw [hs]; simp
    have hrne : s.reverse ≠ [] := by
      intro hc
      exact hne (by simpa using congrArg List.reverse hc)
    have hrall : s.reverse.all isAlpha = true := by
      rw [List.all_reverse]; exact hall
    exact jsTrim_eq_self_edges hne
      ((alpha_facts (edge_facts_of_all hne hall).1).1)
      ((alpha_facts (edge_facts_of_all hrne hrall).1).1)

/-- A clean unit on a parsed object: when the JSON branch fires, the unit
abbreviation it embeds is whitespace-free at its edges. -/
theorem unitCleanFor_elim {v : JSVal} (h : unitCleanFor (some v) = true)
    (hc : (jsTruthy v && !(getFieldD v (strOf "value")).isNullish) = true)
    (hn : (jsToNumber (getFieldD v (strOf "value"))).isSome = true) :
    jsTrim (orS (unitAbbrev (getFieldD v (strOf "unit"))) (strOf "in")) =
      orS (unitAbbrev (getFieldD v (strOf "unit"))) (strOf "in") := by
  unfold unitCleanFor at h
  dsimp only at h
  rw [if_pos (by rw [hc, hn]; decide)] at h
  exact of_decide_eq_true h

/-- Elimination for a successful JSON branch on an object literal. -/
theorem jsonBranch_obj_some {fs : List (JStr × JSVal)} {d out : JStr}
    (h : jsonBranch (.obj fs) d = some out) :
    ∃ q, (jsTruthy (JSVal.obj fs) &&
        !(getFieldD (.obj fs) (strOf "value")).isNullish) = true ∧
      jsToNumber (getFieldD (.obj fs) (strOf "value")) = some q ∧
      out = decToString q ++ ' ' ::
        orS (unitAbbrev (getFieldD (.obj fs) (strOf "unit"))) d := by
  unfold jsonBranch at h
  dsimp only at h
  by_cases hcond : (jsTruthy (JSVal.obj fs) &&
      !(getFieldD (.obj fs) "value".toList).isNullish) = true
  · rw [if_pos hcond] at h
    rcases hn : jsToNumber (getFieldD (.obj fs) "value".toList) with _ | q
    · rw [hn] at h
      exact absurd h (by simp)
    · rw [hn] at h
      dsimp only at h
      exact ⟨q, hcond, hn, (Option.some.inj h).symm⟩
  · rw [if_neg hcond] at h
    exact absurd h (by simp)

/-- The plain-string branch displays a number as its printed form. -/
theorem stringBranch_num (q : Dec) (d : JStr) :
    stringBranch (.num q) d = stringBranch (.str (decToString q)) d := rfl

/-- The plain-string branch displays an object literal as
`"[object Object]"`. -/
theorem stringBranch_obj (fs : List (JStr × JSVal)) (d : JStr) :
    stringBranch (.obj fs) d =
      stringBranch (.str (strOf "[object Object]")) d := rfl

/-- A number input is not nullish; its JSON branch receives it directly. -/
theorem normalize_num_eq (q : Dec) (d : JStr) :
    normalizeMeasureFromJSONish (.num q) d =
      (match jsonBranch (.num q) d with
       | some out => some out
       | none => stringBranch (.num q) d) := rfl

/-- An object input is not nullish; its JSON branch receives it directly. -/
theorem normalize_obj_eq (fs : List (JStr × JSVal)) (d : JStr) :
    normalizeMeasureFromJSONish (.obj fs) d =
      (match jsonBranch (.obj fs) d with
       | some out => some out
       | none => stringBranch (.obj fs) d) := rfl

/-- The JSON branch of a number input falls through (a number has no
`.value` property). -/
theorem jsonBranch_num_none (q : Dec) (d : JStr) :
    jsonBranch (.num q) d = none := by
  unfold jsonBranch
  dsimp only
  rw [if_neg (by simp [getFieldD, getField, JSVal.isNullish])]

/-- The display string of an unusable object is a normalizer fixed point:
`"[object Object]"` is not valid JSON and does not match the measurement
regex. -/
theorem normalize_objDisplay :
    normalizeMeasureFromJSONish (.str (strOf "[object Object]")) (strOf "in") =
      some (strOf "[object Object]") := by decide

end RC

namespace RC

/-- C2 (amended): the part_000 metafield normalizer
`normalizeMeasureFromJSONish` is idempotent at its default unit `"in"` on
clean inputs — the spec's input kinds (null, string, JSON-string, number,
structured object) with strings already trimmed and with whitespace-clean
units (`cleanInput`): feeding the result back in returns it unchanged.
The unrestricted claim — any fixed default unit, any input — is false,
see the counterexample `normalizer_not_idempotent`. -/
theorem normalizer_idempotent_clean (x : JSVal) (h : cleanInput x = true) :
    normalizeMeasureFromJSONish (optToJS (normalizeMeasureFromJSONish x (strOf "in")))
        (strOf "in")
      = normalizeMeasureFromJSONish x (strOf "in") := by
  cases x with
  | null => rfl
  | undef => rfl
  | bool b => cases b <;> decide
  | nan => decide
  | arr xs => exact absurd h (by simp [cleanInput])
  | num q =>
    obtain ⟨hdne, hdall, hdstart, _⟩ := decToString_facts q
    have htr : jsTrim (decToString q) = decToString q := jsTrim_numChars hdall
    have hbase : normalizeMeasureFromJSONish (.num q) (strOf "in") =
        stringBranch (.str (decToString q)) (strOf "in") := by
      rw [normalize_num_eq, jsonBranch_num_none]
      rfl
    by_cases hm : q.m < 0
    · have hdash : (decToString q).headD ' ' = '-' := (decToString_shape q).2 hm
      have hinner : normalizeMeasureFromJSONish (.num q) (strOf "in") =
          some (decToString q) := by
        rw [hbase, stringBranch_str, htr, if_neg hdne,
          matchMeasure_none_head (by rw [hdash]; decide)]
      rw [hinner]
      exact normalize_dash_token _ hdne hdall hdash
    · have hs : numShape (decToString q) = true := (decToString_shape q).1 (by omega)
      have hinner : normalizeMeasureFromJSONish (.num q) (strOf "in") =
          some (decToString q ++ ' ' :: orS (unitAbbrev JSVal.undef) (strOf "in")) := by
        rw [hbase, stringBranch_str, htr, if_neg hdne, matchMeasure_num _ hs]
      rw [hinner]
      exact normalize_fix (decToString q) JSVal.undef hdne hdall hdstart
        (Or.inl hs) (by decide)
  | obj fs =>
    have hu : unitCleanFor (some (JSVal.obj fs)) = true := by
      simpa [cleanInput] using h
    rcases hjb : jsonBranch (.obj fs) (strOf "in") with _ | out
    · have hinner : normalizeMeasureFromJSONish (.obj fs) (strOf "in") =
          some (strOf "[object Object]") := by
        rw [normalize_obj_eq, hjb, stringBranch_obj]
        decide
      rw [hinner]
      exact normalize_objDisplay
    · obtain ⟨q, hc, hn, hout⟩ := jsonBranch_obj_some hjb
      have hinner : normalizeMeasureFromJSONish (.obj fs) (strOf "in") = some out := by
        rw [normalize_obj_eq, hjb]
      have hcl := unitCleanFor_elim hu hc (by rw [hn]; rfl)
      obtain ⟨hdne, hdall, hdstart, _⟩ := decToString_facts q
      have hshape2 : numShape (decToString q) = true ∨
          (decToString q).headD ' ' = '-' := by
        by_cases hm : q.m < 0
        · exact Or.inr ((decToString_shape q).2 hm)
        · exact Or.inl ((decToString_shape q).1 (by omega))
      rw [hinner, hout]
      exact normalize_fix (decToString q) (getFieldD (.obj fs) (strOf "unit"))
        hdne hdall hdstart hshape2 hcl
  | str s0 =>
    simp only [cleanInput, Bool.and_eq_true, decide_eq_true_eq] at h
    obtain ⟨ht, hu⟩ := h
    rcases hjb : jsonBranch (.str s0) (strOf "in") with _ | out
    · have hinner0 : normalizeMeasureFromJSONish (.str s0) (strOf "in") =
          stringBranch (.str s0) (strOf "in") := by
        rw [normalize_str_eq, hjb]
      rw [stringBranch_str, ht] at hinner0
      by_cases h0 : s0 = []
      · rw [if_pos h0] at hinner0
        rw [hinner0]
        rfl
      · rw [if_neg h0] at hinner0
        rcases hmm : matchMeasure s0 with _ | ⟨num, cap⟩
        · rw [hmm] at hinner0
          rw [hinner0]
          exact hinner0
        · rw [hmm] at hinner0
          obtain ⟨hshape, hcap⟩ := matchMeasure_some_facts hmm
          obtain ⟨hne', hall', hstart'⟩ := numShape_token_facts hshape
          cases cap with
          | none =>
            rw [hinner0]
            exact normalize_fix num JSVal.undef hne' hall' hstart'
              (Or.inl hshape) (by decide)
          | some cu =>
            obtain ⟨hcune, hcualpha⟩ := hcap cu rfl
            have hua : (orS (unitAbbrev (JSVal.str cu)) (strOf "in")).all isAlpha
                = true := by
              by_cases hz : unitAbbrev (JSVal.str cu) = []
              · rw [hz]; decide
              · rw [orS_pos _ hz]
                have htru : jsTruthy (JSVal.str cu) = true := by
                  simp [jsTruthy, hcune]
                rw [unitAbbrev_truthy htru]
                have hjd : jsDisplay (JSVal.str cu) = cu := rfl
                rw [hjd]
                obtain ⟨hl1, hl2⟩ := lowerStr_alpha hcune hcualpha
                exact (unitChain_alpha hl1 hl2).2
            rw [hinner0]
            exact normalize_fix num (JSVal.str cu) hne' hall' hstart'
              (Or.inl hshape) (jsTrim_alphaChars hua)
    · obtain ⟨v, q, hp, hc, hn, hout⟩ := jsonBranch_str_some hjb
      have hinner : normalizeMeasureFromJSONish (.str s0) (strOf "in") = some out := by
        rw [normalize_str_eq, hjb]
      rw [hp] at hu
      have hcl := unitCleanFor_elim hu hc (by rw [hn]; rfl)
      obtain ⟨hdne, hdall, hdstart, _⟩ := decToString_facts q
      have hshape2 : numShape (decToString q) = true ∨
          (decToString q).headD ' ' = '-' := by
        by_cases hm : q.m < 0
        · exact Or.inr ((decToString_shape q).2 hm)
        · exact Or.inl ((decToString_shape q).1 (by omega))
      rw [hinner, hout]
      exact normalize_fix (decToString q) (getFieldD v (strOf "unit"))
        hdne hdall hdstart hshape2 hcl

end RC

namespace RC

/-- C2, counterexample to the claim as stated: with the fixed default unit
`"INCHES"`, normalizing the string `"4"` yields `"4 INCHES"`, but
normalizing that result yields `"4 in"` — the unit word the first pass
embedded is abbreviated by the second, so normalize of normalize differs
from normalize. -/
theorem normalizer_not_idempotent :
    normalizeMeasureFromJSONish (.str (strOf "4")) (strOf "INCHES")
        = some (strOf "4 INCHES") ∧
    normalizeMeasureFromJSONish
        (optToJS (normalizeMeasureFromJSONish (.str (strOf "4")) (strOf "INCHES")))
        (strOf "INCHES")
      = some (strOf "4 in") ∧
    normalizeMeasureFromJSONish
        (optToJS (normalizeMeasureFromJSONish (.str (strOf "4")) (strOf "INCHES")))
        (strOf "INCHES")
      ≠ normalizeMeasureFromJSONish (.str (strOf "4")) (strOf "INCHES") := by
  decide

/-- Witness for C2: the already-normalized string `"4 INCHES"` is a clean
input, and the amended idempotence theorem applies to it. -/
theorem normalizer_idempotent_clean_witness :
    cleanInput (.str (strOf "4 INCHES")) = true ∧
    normalizeMeasureFromJSONish
        (optToJS (normalizeMeasureFromJSONish (.str (strOf "4 INCHES")) (strOf "in")))
        (strOf "in")
      = normalizeMeasureFromJSONish (.str (strOf "4 INCHES")) (strOf "in") :=
  ⟨by decide, normalizer_idempotent_clean (.str (strOf "4 INCHES")) (by decide)⟩

end RC
